import Mathlib

/-!
# Fake ethash consensus engines (`consensus/ethash/fake.go`)

A shallow embedding of the `FakeEthash` decorator.  Every method is a total
function that returns a `Run`: the calls it made to its collaborators, in
program order, and how it ended (a Go `error` value, `nil` included, or a
runtime panic).  The held `Ethash` engine, the chain reader and the types of
package `types` are declared outside this file of the repository; they enter
as parameters or as small records.
-/

namespace FakeEthashModel

/-- A 32-byte hash (`common.Hash`), as the number it encodes; the zero value
`common.Hash{}` is `0`. -/
abbrev Hash := Nat

/-- An 8-byte block nonce (`types.BlockNonce`); the zero value is `0`. -/
abbrev BlockNonce := Nat

/-- Modelled from the spec: the header type of package `types` is not part of
this file.  Block metadata: parent reference, number (arbitrary precision),
timestamp, difficulty, extra data and the seal material (mix digest, nonce).
A header is a value here: the pointers to it and to its number are not nil. -/
structure Header where
  ParentHash : Hash
  Difficulty : Int
  Number : Int
  Time : Nat
  Extra : List Nat
  MixDigest : Hash
  Nonce : BlockNonce
  deriving DecidableEq, Repr

/-- The method `Number.Uint64()` of `math/big`: the low 64 bits of the absolute
value of the number. -/
def Uint64 (x : Int) : Nat := x.natAbs % 2 ^ 64

/-- Modelled from the spec: the block type of package `types` is not part of
this file.  A block is a header plus a body. -/
structure Block where
  header : Header
  uncles : List Header
  transactions : List Nat
  deriving DecidableEq, Repr

/-- Modelled from the spec: `block.WithSeal(header)` is a new block with the
given header and the body of the receiver. -/
def Block.WithSeal (b : Block) (header : Header) : Block :=
  { header := header, uncles := b.uncles, transactions := b.transactions }

/-- Modelled from the spec: `block.Header()` hands out a copy of the header of
the block, so that writing to the copy leaves the block as it was. -/
def Block.Header (b : Block) : Header := b.header

/-- Go `error` values that can leave this file: the two sentinels of package
`ethash` named in it, and whatever else the held engine returns. -/
inductive GoError where
  | errTooManyUncles
  | errInvalidPoW
  | structural (code : Nat)
  deriving DecidableEq, Repr

/-- Modelled from the spec: the uncle ceiling `maxUncles` of package `ethash`
is declared outside this file; the spec fixes it at 2. -/
def maxUncles : Nat := 2

/-- Modelled from the spec: the chain reader is an external collaborator giving
read-only access to ancestor headers and blocks. -/
structure ChainReader where
  GetHeader : Hash → Nat → Option Header
  GetBlock : Hash → Nat → Option Block

/-- The callback type `consensus.SystemCall`; the decorator only passes it on. -/
abbrev SystemCall := Nat → List Nat → List Nat

/-- The set of uncle hashes already used (`mapset.Set`). -/
abbrev UncleSet := List Hash

/-- The ancestor window (`map[common.Hash]*types.Header`). -/
abbrev Ancestors := List (Hash × Header)

/-- The held engine: the methods of `Ethash` that the decorator delegates to,
and the helper `getUncles` of the same package.  None of them is defined in this
file, so they are parameters.  The pool and the window given to `VerifyUncle` are
Go reference values (a set and a map) which the held check may update, so it
returns them as it leaves them, next to its error. -/
structure Ethash where
  VerifyHeader : ChainReader → Header → Bool → SystemCall → Option GoError
  VerifyHeaders : ChainReader → List Header → List Bool → Option GoError
  VerifyUncle : ChainReader → Header → Header → UncleSet → Ancestors → Bool →
    Option GoError × UncleSet × Ancestors
  SealHash : Header → Hash
  getUncles : ChainReader → Header → UncleSet × Ancestors

/-- The decorator `FakeEthash`: the embedded engine, the block number that
fails the seal check (`uint64`), and the delay before a seal check returns
(`time.Duration`, a signed count of nanoseconds). -/
structure FakeEthash where
  Ethash : Ethash
  fakeFail : Nat
  fakeDelay : Int

/-- Calls and effects a method can be observed to make, in program order. -/
inductive Event where
  | heldVerifyHeaders (headers : List Header) (seals : List Bool)
  | heldVerifyHeader (header : Header) (checkSeal : Bool)
  | heldVerifyUncle (block uncle : Header) (checkSeal : Bool)
  | getUncles (header : Header)
  | callVerifyUncle (block uncle : Header) (checkSeal : Bool)
  | callVerifySeal (header : Header)
  | sleep (d : Int)
  | logWarn (msg : String) (mode : String) (sealhash : Hash)
  deriving DecidableEq, Repr

/-- How a call ends: it returns an `error` (`none` is `nil`) or it panics. -/
inductive Outcome where
  | returned (err : Option GoError)
  | panicked (msg : String)
  deriving DecidableEq, Repr

/-- The observable behaviour of one call. -/
structure Run where
  trace : List Event
  out : Outcome
  deriving DecidableEq, Repr

/-- The observable behaviour of one call of `VerifyUncle`, with the pool and the
window as the call leaves them. -/
structure UncleRun where
  run : Run
  uncles : UncleSet
  ancestors : Ancestors
  deriving DecidableEq, Repr

/-- A call that returns `nil` without doing anything. -/
def Run.nil : Run := ⟨[], .returned none⟩

/-- Sequencing `if err := r; err != nil { return err }; k`: the rest runs only
after a `nil` return. -/
def Run.andThen (r k : Run) : Run :=
  match r.out with
  | .returned none => ⟨r.trace ++ k.trace, k.out⟩
  | _ => r

/-- One call to a method of the held engine, recorded with the header and flag
arguments it was given. -/
def Run.held (e : Event) (err : Option GoError) : Run := ⟨[e], .returned err⟩

/-- The constructor `NewFakeFailer`. -/
def NewFakeFailer (held : Ethash) (fail : Nat) : FakeEthash :=
  { Ethash := held, fakeFail := fail, fakeDelay := 0 }

/-- The constructor `NewFaker`. -/
def NewFaker (held : Ethash) : FakeEthash :=
  { Ethash := held, fakeFail := 0, fakeDelay := 0 }

/-- The constructor `NewFakeDelayer`. -/
def NewFakeDelayer (held : Ethash) (delay : Int) : FakeEthash :=
  { Ethash := held, fakeFail := 0, fakeDelay := delay }

/-- The method `FakeEthash.VerifySeal`: sleep when a delay is set, then reject
the header whose truncated number is `fakeFail`. -/
def VerifySeal (f : FakeEthash) (_chain : ChainReader) (header : Header) : Run :=
  { trace := Event.callVerifySeal header ::
      (if f.fakeDelay > 0 then [Event.sleep f.fakeDelay] else []),
    out := if f.fakeFail = Uint64 header.Number then .returned (some .errInvalidPoW)
           else .returned none }

/-- The loop `for i, header := range headers { if seals[i] { ... } }` of
`VerifyHeaders`, from index `i` on; indexing past the end of `seals` panics. -/
def sealLoop (f : FakeEthash) (chain : ChainReader) (seals : List Bool) :
    Nat → List Header → Run
  | _, [] => Run.nil
  | i, header :: rest =>
    match seals[i]? with
    | none => ⟨[], .panicked "index out of range"⟩
    | some true => (VerifySeal f chain header).andThen (sealLoop f chain seals (i + 1) rest)
    | some false => sealLoop f chain seals (i + 1) rest

/-- The method `FakeEthash.VerifyHeaders`. -/
def VerifyHeaders (f : FakeEthash) (chain : ChainReader) (headers : List Header)
    (seals : List Bool) : Run :=
  let fakeSeals := List.replicate seals.length false
  (Run.held (.heldVerifyHeaders headers fakeSeals)
      (f.Ethash.VerifyHeaders chain headers fakeSeals)).andThen
    (sealLoop f chain seals 0 headers)

/-- The method `FakeEthash.VerifyHeader`. -/
def VerifyHeader (f : FakeEthash) (chain : ChainReader) (header : Header) (checkSeal : Bool)
    (sysCall : SystemCall) : Run :=
  (Run.held (.heldVerifyHeader header false)
      (f.Ethash.VerifyHeader chain header false sysCall)).andThen
    (if checkSeal then VerifySeal f chain header else Run.nil)

/-- The method `FakeEthash.VerifyUncle`. -/
def VerifyUncle (f : FakeEthash) (chain : ChainReader) (block uncle : Header)
    (uncles : UncleSet) (ancestors : Ancestors) (checkSeal : Bool) : UncleRun :=
  let r := f.Ethash.VerifyUncle chain block uncle uncles ancestors false
  { run :=
      (Run.andThen ⟨[.callVerifyUncle block uncle checkSeal], .returned none⟩
        (Run.held (.heldVerifyUncle block uncle false) r.1)).andThen
        (if checkSeal then VerifySeal f chain uncle else Run.nil),
    uncles := r.2.1,
    ancestors := r.2.2 }

/-- The loop `for _, uncle := range uncles` of `VerifyUncles`; every call gets
the pool and the window as the call before left them. -/
def uncleLoop (f : FakeEthash) (chain : ChainReader) (header : Header) :
    UncleSet → Ancestors → List Header → Run
  | _, _, [] => Run.nil
  | uncleBlocks, ancestors, uncle :: rest =>
    let r := VerifyUncle f chain header uncle uncleBlocks ancestors true
    r.run.andThen (uncleLoop f chain header r.uncles r.ancestors rest)

/-- The method `FakeEthash.VerifyUncles`. -/
def VerifyUncles (f : FakeEthash) (chain : ChainReader) (header : Header)
    (uncles : List Header) : Run :=
  if uncles.length > maxUncles then ⟨[], .returned (some .errTooManyUncles)⟩
  else if uncles.length = 0 then Run.nil
  else
    let p := f.Ethash.getUncles chain header
    Run.andThen ⟨[.getUncles header], .returned none⟩
      (uncleLoop f chain header p.1 p.2 uncles)

/-- The state of the channel behind the result sink of `Seal`: closed, nil, or
live with room for so many values right now without blocking (receivers ready to
take one, plus free buffer slots).  A send on a closed channel panics; a send on
a nil channel never proceeds. -/
inductive ChanState where
  | closed
  | nilChan
  | live (room : Nat)
  deriving DecidableEq, Repr

/-- The result sink of `Seal` (`chan<- *types.Block`): the state of the channel,
and what has been delivered to it so far. -/
structure ResultSink where
  chan : ChanState
  delivered : List Block
  deriving DecidableEq, Repr

/-- How many values the sink can take right now without blocking: none when the
channel is closed or nil. -/
def ResultSink.room (s : ResultSink) : Nat :=
  match s.chan with
  | .live n => n
  | _ => 0

/-- The observable behaviour of one call of `Seal`: the log events, the return
value, the sink after the call, and the input block as the call left it. -/
structure SealRun where
  trace : List Event
  out : Outcome
  sink : ResultSink
  block : Block
  deriving DecidableEq, Repr

/-- The method `FakeEthash.Seal`: zero the seal fields on a copy of the header,
then `select` between sending the resealed block and the `default` branch,
which logs a warning.  On a closed channel the send case is taken and panics; on
a nil channel, and on a live one without room, the `default` branch runs.  The
`stop` channel is a parameter the body never reads. -/
def Seal (f : FakeEthash) (_chain : ChainReader) (block : Block) (results : ResultSink)
    (_stop : Bool) : SealRun :=
  let header := block.Header
  let header := { header with Nonce := 0, MixDigest := 0 }
  match results.chan with
  | .closed =>
    { trace := [],
      out := .panicked "send on closed channel",
      sink := results,
      block := block }
  | .live (n + 1) =>
    { trace := [],
      out := .returned none,
      sink := { chan := .live n,
                delivered := results.delivered ++ [block.WithSeal header] },
      block := block }
  | _ =>
    { trace := [.logWarn "Sealing result is not read by miner" "fake"
                  (f.Ethash.SealHash block.Header)],
      out := .returned none,
      sink := results,
      block := block }

/-! ## Reference definitions used to state the properties -/

/-- The first error of a list of results, in list order. -/
def firstError : List (Option GoError) → Option GoError
  | [] => none
  | some e :: _ => some e
  | none :: rest => firstError rest

/-- Runs done one after the other, stopping at the first that does not return
`nil`. -/
def firstFailure : List Run → Run
  | [] => Run.nil
  | r :: rest => r.andThen (firstFailure rest)

/-- The per-element reading of the batch contract: `VerifyHeader` on each header
with the flag at the same position, in input order, first failure returned. -/
def verifyHeadersPerElement (f : FakeEthash) (chain : ChainReader) (sysCall : SystemCall)
    (headers : List Header) (seals : List Bool) : Run :=
  firstFailure (List.zipWith (fun h s => VerifyHeader f chain h s sysCall) headers seals)

/-- The per-element contract for the batch check of the held engine, at the call
the decorator makes: with every flag off it returns the first error that its
single-header check gives, in input order. -/
def HeldBatchContract (held : Ethash) (chain : ChainReader) (sysCall : SystemCall)
    (headers : List Header) : Prop :=
  held.VerifyHeaders chain headers (List.replicate headers.length false) =
    firstError (headers.map fun h => held.VerifyHeader chain h false sysCall)

/-- The headers of a batch whose own flag is on, in input order. -/
def flagged (headers : List Header) (seals : List Bool) : List Header :=
  ((headers.zip seals).filter fun p => p.2).map fun p => p.1

/-- Whether the seal check of engine `f` rejects the header. -/
def sealFails (f : FakeEthash) (h : Header) : Bool :=
  decide (f.fakeFail = Uint64 h.Number)

/-- The headers of `fl` up to and including the first one that the seal check
of `f` rejects (all of `fl` when it rejects none). -/
def sealChecked (f : FakeEthash) (fl : List Header) : List Header :=
  fl.takeWhile (fun h => !sealFails f h) ++ (fl.find? (sealFails f)).toList

/-- The runs of `VerifyUncle`, flag on, over the uncles in list order, the first
started with the given pool and window and each later one with the pool and
window the one before left. -/
def uncleChecks (f : FakeEthash) (chain : ChainReader) (header : Header) :
    UncleSet → Ancestors → List Header → List Run
  | _, _, [] => []
  | pool, window, uncle :: rest =>
    (VerifyUncle f chain header uncle pool window true).run ::
      uncleChecks f chain header
        (VerifyUncle f chain header uncle pool window true).uncles
        (VerifyUncle f chain header uncle pool window true).ancestors rest

/-- The errors of the held `VerifyUncle`, flag off, over the uncles in list order,
pool and window handed on from each call to the next. -/
def heldUncleErrors (held : Ethash) (chain : ChainReader) (header : Header) :
    UncleSet → Ancestors → List Header → List (Option GoError)
  | _, _, [] => []
  | pool, window, uncle :: rest =>
    (held.VerifyUncle chain header uncle pool window false).1 ::
      heldUncleErrors held chain header
        (held.VerifyUncle chain header uncle pool window false).2.1
        (held.VerifyUncle chain header uncle pool window false).2.2 rest

/-- The runs of `VerifyUncle` that `VerifyUncles` asks for: `uncleChecks` started
with the pool and window that `getUncles` gives for the block. -/
def uncleRuns (f : FakeEthash) (chain : ChainReader) (header : Header)
    (uncles : List Header) : List Run :=
  uncleChecks f chain header (f.Ethash.getUncles chain header).1
    (f.Ethash.getUncles chain header).2 uncles

/-- The walk of `sealLoop` read off the two lists side by side. -/
def sealWalk (f : FakeEthash) (chain : ChainReader) : List Header → List Bool → Run
  | [], _ => Run.nil
  | _ :: _, [] => ⟨[], .panicked "index out of range"⟩
  | h :: hs, true :: ss => (VerifySeal f chain h).andThen (sealWalk f chain hs ss)
  | _ :: hs, false :: ss => sealWalk f chain hs ss

/-! ## A concrete engine, chain and headers for the examples -/

/-- A chain reader that knows no header and no block. -/
def emptyChain : ChainReader := ⟨fun _ _ => none, fun _ _ => none⟩

/-- A system call that returns its input. -/
def idSysCall : SystemCall := fun _ data => data

/-- A header with the given number, a non-zero timestamp and non-zero seal
fields. -/
def headerAt (n : Int) : Header :=
  { ParentHash := 11, Difficulty := 3, Number := n, Time := 5, Extra := [1, 2],
    MixDigest := 77, Nonce := 99 }

/-- A header with the given number and timestamp zero, which `strictHeld`
rejects. -/
def badHeaderAt (n : Int) : Header := { headerAt n with Time := 0 }

/-- A held engine whose structural rule is "timestamp not zero" and whose uncle
rule is "number not already used", the used numbers being kept in the pool; its
batch check returns the first error of the single checks; with the flag on it
also wants a non-zero nonce. -/
def strictHeld : Ethash :=
  { VerifyHeader := fun _ h s _ =>
      if h.Time = 0 then some (.structural 1)
      else if s && h.Nonce == 0 then some .errInvalidPoW else none,
    VerifyHeaders := fun _ hs ss =>
      firstError (List.zipWith (fun h s =>
        if h.Time = 0 then some (.structural 1)
        else if s && h.Nonce == 0 then some .errInvalidPoW else none) hs ss),
    VerifyUncle := fun _ _ u used window s =>
      if u.Number.natAbs ∈ used then (some (.structural 2), used, window)
      else if s && u.Nonce == 0 then (some .errInvalidPoW, u.Number.natAbs :: used, window)
      else (none, u.Number.natAbs :: used, window),
    SealHash := fun h => h.ParentHash + h.Time,
    getUncles := fun _ h => ([h.Number.natAbs], [(h.ParentHash, h)]) }

/-- A block with one uncle and two transactions. -/
def sampleBlock : Block :=
  { header := headerAt 8, uncles := [headerAt 7], transactions := [4, 5] }

/-! ## The total bypass `FullFakeEthash` -/

/-- The decorator `FullFakeEthash`, declared as `type FullFakeEthash FakeEthash`:
the same fields, and a method set of its own. -/
structure FullFakeEthash where
  Ethash : Ethash
  fakeFail : Nat
  fakeDelay : Int

/-- The constructor `NewFullFaker`. -/
def NewFullFaker (held : Ethash) : FullFakeEthash :=
  { Ethash := held, fakeFail := 0, fakeDelay := 0 }

/-- The method `FullFakeEthash.VerifyHeader`: `return nil`. -/
def FullFakeEthash.VerifyHeader (_f : FullFakeEthash) (_chain : ChainReader)
    (_header : Header) (_checkSeal : Bool) (_sysCall : SystemCall) : Run :=
  ⟨[], .returned none⟩

/-- The method `FullFakeEthash.VerifyHeaders`: `return nil`. -/
def FullFakeEthash.VerifyHeaders (_f : FullFakeEthash) (_chain : ChainReader)
    (_headers : List Header) (_seals : List Bool) : Run :=
  ⟨[], .returned none⟩

/-- The method `FullFakeEthash.VerifyUncles`: `return nil`. -/
def FullFakeEthash.VerifyUncles (_f : FullFakeEthash) (_chain : ChainReader)
    (_header : Header) (_uncles : List Header) : Run :=
  ⟨[], .returned none⟩

/-! ## Calls made one after the other -/

/-- What a call of `VerifyHeader` or `VerifySeal` can reach: the engine object
behind the receiver, the header object behind the pointer argument, and the wall
clock (in nanoseconds). -/
structure Memory where
  engine : FakeEthash
  header : Header
  clock : Int

/-- The call `time.Sleep(d)`: the clock moves on by `d`. -/
def Memory.sleep (m : Memory) (d : Int) : Memory :=
  { m with clock := m.clock + d }

/-- A `*types.Header` argument as a method receives it: a nil pointer, a header
whose field `Number` is a nil `*big.Int` (the other fields are `fields`), or a
header with a number. -/
inductive HeaderPtr where
  | nilHeader
  | nilNumber (fields : Header)
  | valid (h : Header)
  deriving DecidableEq, Repr

/-- Whether the pointer and the number behind it are not nil. -/
def HeaderPtr.isValid : HeaderPtr → Bool
  | .valid _ => true
  | _ => false

/-- Sequencing `if err := o; err != nil { return err }; k` on results alone. -/
def Outcome.andThen (o k : Outcome) : Outcome :=
  match o with
  | .returned none => k
  | _ => o

/-- The result of `FakeEthash.VerifySeal` on a header pointer: the expression
`header.Number.Uint64()` dereferences the header and its number and panics when
either is nil; otherwise the result is that of `VerifySeal` on the header. -/
def VerifySealPtr (f : FakeEthash) (chain : ChainReader) : HeaderPtr → Outcome
  | .valid h => (VerifySeal f chain h).out
  | _ => .panicked "nil pointer dereference"

/-- The held batch check as Go calls it, on header pointers: it returns `nil` or
an error, or panics.  It is defined outside this file, so it is a parameter. -/
abbrev HeldBatchPtr := ChainReader → List HeaderPtr → List Bool → Outcome

/-- The loop of `VerifyHeaders` on header pointers, from index `i` on, result
only. -/
def sealLoopPtr (f : FakeEthash) (chain : ChainReader) (seals : List Bool) :
    Nat → List HeaderPtr → Outcome
  | _, [] => .returned none
  | i, header :: rest =>
    match seals[i]? with
    | none => .panicked "index out of range"
    | some true =>
      (VerifySealPtr f chain header).andThen (sealLoopPtr f chain seals (i + 1) rest)
    | some false => sealLoopPtr f chain seals (i + 1) rest

/-- The result of `FakeEthash.VerifyHeaders` on header pointers, with the held
batch check `held` in the place of `f.Ethash.VerifyHeaders`. -/
def VerifyHeadersPtr (held : HeldBatchPtr) (f : FakeEthash) (chain : ChainReader)
    (headers : List HeaderPtr) (seals : List Bool) : Outcome :=
  (held chain headers (List.replicate seals.length false)).andThen
    (sealLoopPtr f chain seals 0 headers)

/-- Whether the seal check of `f` returns `nil` on the pointer: the header and
its number are there and the check accepts the header. -/
def passesSealPtr (f : FakeEthash) : HeaderPtr → Bool
  | .valid h => !sealFails f h
  | _ => false

/-- The walk of `sealLoopPtr` read off the two lists side by side. -/
def sealWalkPtr (f : FakeEthash) (chain : ChainReader) :
    List HeaderPtr → List Bool → Outcome
  | [], _ => .returned none
  | _ :: _, [] => .panicked "index out of range"
  | p :: ps, true :: ss => (VerifySealPtr f chain p).andThen (sealWalkPtr f chain ps ss)
  | _ :: ps, false :: ss => sealWalkPtr f chain ps ss

/-- A held batch check on pointers that skips nil headers and applies the
structural rule of `strictHeld`, "timestamp not zero", to the others. -/
def lenientHeldPtr : HeldBatchPtr := fun _ hs _ =>
  .returned (firstError (hs.map fun p =>
    match p with
    | .valid h => if h.Time = 0 then some (.structural 1) else none
    | _ => none))

end FakeEthashModel

/-! # The list of RPC APIs (`cmd/rpcdaemon/commands/daemon.go`) -/

namespace RpcDaemonModel

/-- The value of the field `Service` of an `rpc.API`: one of the nine interface
conversions that `APIList` applies to an implementation object, or the service
of a custom API.  Implementation objects are handles. -/
inductive Service where
  | EthAPI (impl : Nat)
  | PrivateDebugAPI (impl : Nat)
  | NetAPI (impl : Nat)
  | TxPoolAPI (impl : Nat)
  | Web3API (impl : Nat)
  | TraceAPI (impl : Nat)
  | DBAPI (impl : Nat)
  | EngineAPI (impl : Nat)
  | BorAPI (impl : Nat)
  | custom (id : Nat)
  deriving DecidableEq, Repr

/-- The struct `rpc.API`, with the four fields that `APIList` sets. -/
structure API where
  Namespace : String
  Public : Bool
  Service : Service
  Version : String
  deriving DecidableEq, Repr

/-- The fields of `cli.Flags` that `APIList` reads. -/
structure Flags where
  API : List String
  TevmEnabled : Bool
  SingleNodeMode : Bool
  Gascap : Nat

/-- The nine implementation objects that `APIList` builds before its loop.  Their
constructors (`NewEthAPI`, `NewTxPoolAPI`, ...) are defined outside this file, so
the objects are parameters. -/
structure Impls where
  ethImpl : Nat
  txpoolImpl : Nat
  netImpl : Nat
  debugImpl : Nat
  traceImpl : Nat
  web3Impl : Nat
  dbImpl : Nat
  engineImpl : Nat
  borImpl : Nat

/-- The body of the loop of `APIList`: the `switch` on one element of `cfg.API`,
appending to `defaultAPIList` in the nine named cases and doing nothing in all
others. -/
def appendEnabled (m : Impls) (defaultAPIList : List API) (enabledAPI : String) : List API :=
  if enabledAPI = "eth" then
    defaultAPIList ++
      [{ Namespace := "eth", Public := true, Service := .EthAPI m.ethImpl, Version := "1.0" }]
  else if enabledAPI = "debug" then
    defaultAPIList ++
      [{ Namespace := "debug", Public := true, Service := .PrivateDebugAPI m.debugImpl,
         Version := "1.0" }]
  else if enabledAPI = "net" then
    defaultAPIList ++
      [{ Namespace := "net", Public := true, Service := .NetAPI m.netImpl, Version := "1.0" }]
  else if enabledAPI = "txpool" then
    defaultAPIList ++
      [{ Namespace := "txpool", Public := true, Service := .TxPoolAPI m.txpoolImpl,
         Version := "1.0" }]
  else if enabledAPI = "web3" then
    defaultAPIList ++
      [{ Namespace := "web3", Public := true, Service := .Web3API m.web3Impl,
         Version := "1.0" }]
  else if enabledAPI = "trace" then
    defaultAPIList ++
      [{ Namespace := "trace", Public := true, Service := .TraceAPI m.traceImpl,
         Version := "1.0" }]
  else if enabledAPI = "db" then
    defaultAPIList ++
      [{ Namespace := "db", Public := true, Service := .DBAPI m.dbImpl, Version := "1.0" }]
  else if enabledAPI = "engine" then
    defaultAPIList ++
      [{ Namespace := "engine", Public := true, Service := .EngineAPI m.engineImpl,
         Version := "1.0" }]
  else if enabledAPI = "bor" then
    defaultAPIList ++
      [{ Namespace := "bor", Public := true, Service := .BorAPI m.borImpl, Version := "1.0" }]
  else defaultAPIList

/-- The function `APIList`: the loop over `cfg.API` starting from the empty
`defaultAPIList`, then `append(defaultAPIList, customAPIList...)`. -/
def APIList (m : Impls) (cfg : Flags) (customAPIList : List API) : List API :=
  cfg.API.foldl (appendEnabled m) [] ++ customAPIList

/-- The nine names that the `switch` of `APIList` has a case for. -/
def recognised : List String :=
  ["eth", "debug", "net", "txpool", "web3", "trace", "db", "engine", "bor"]

/-- Implementation handles for the examples. -/
def sampleImpls : Impls :=
  { ethImpl := 1, txpoolImpl := 2, netImpl := 3, debugImpl := 4, traceImpl := 5,
    web3Impl := 6, dbImpl := 7, engineImpl := 8, borImpl := 9 }

end RpcDaemonModel

namespace FakeEthashModel

/-! ## Shared lemmas -/

theorem andThen_ok (t : List Event) (k : Run) :
    Run.andThen ⟨t, .returned none⟩ k = ⟨t ++ k.trace, k.out⟩ := rfl

theorem andThen_err (t : List Event) (e : GoError) (k : Run) :
    Run.andThen ⟨t, .returned (some e)⟩ k = ⟨t, .returned (some e)⟩ := rfl

theorem andThen_out_ok_iff (r k : Run) :
    (r.andThen k).out = .returned none ↔ r.out = .returned none ∧ k.out = .returned none := by
  obtain ⟨t, o⟩ := r
  cases o with
  | returned err =>
    cases err with
    | none => simp [Run.andThen]
    | some e => simp [Run.andThen]
  | panicked m => simp [Run.andThen]

theorem andThen_of_ok (r k : Run) (h : r.out = .returned none) :
    r.andThen k = ⟨r.trace ++ k.trace, k.out⟩ := by
  obtain ⟨t, o⟩ := r
  simp only at h
  subst h
  rfl

theorem andThen_of_not_ok (r k : Run) (h : r.out ≠ .returned none) : r.andThen k = r := by
  obtain ⟨t, o⟩ := r
  cases o with
  | returned err =>
    cases err with
    | none => exact absurd rfl h
    | some e => rfl
  | panicked m => rfl

theorem verifySeal_out (f : FakeEthash) (chain : ChainReader) (h : Header) :
    (VerifySeal f chain h).out =
      if f.fakeFail = Uint64 h.Number then .returned (some .errInvalidPoW)
      else .returned none := rfl

theorem uint64_of_lt (n : Int) (h0 : 0 ≤ n) (h1 : n < 2 ^ 64) : (Uint64 n : Int) = n := by
  unfold Uint64
  have h2 : n.natAbs < 2 ^ 64 := by omega
  rw [Nat.mod_eq_of_lt h2]
  omega

theorem verifySeal_rejects_number (f : FakeEthash) (chain : ChainReader) (h : Header)
    (hlt : f.fakeFail < 2 ^ 64) (hn : h.Number = (f.fakeFail : Int)) :
    (VerifySeal f chain h).out = .returned (some .errInvalidPoW) := by
  rw [verifySeal_out]
  have hu : Uint64 h.Number = f.fakeFail := by
    have := uint64_of_lt h.Number (by omega) (by omega)
    omega
  simp [hu]

/-! ## The claims -/

/-- C1, as the code has it: `VerifySeal` fails with the invalid-seal error
exactly when the low 64 bits of the header number equal `failAt`, and succeeds
otherwise.  So for `failAt` in the `uint64` range it fails when the header number
is `failAt`, and it succeeds for every other header number in `[0, 2^64)`; the
outcome does not depend on the delay. -/
theorem verifySeal_failAt (f : FakeEthash) (chain : ChainReader) (h : Header) :
    ((VerifySeal f chain h).out = .returned (some .errInvalidPoW) ↔
        Uint64 h.Number = f.fakeFail) ∧
    ((VerifySeal f chain h).out = .returned none ↔ Uint64 h.Number ≠ f.fakeFail) ∧
    (f.fakeFail < 2 ^ 64 → h.Number = (f.fakeFail : Int) →
        (VerifySeal f chain h).out = .returned (some .errInvalidPoW)) ∧
    (0 ≤ h.Number → h.Number < 2 ^ 64 → h.Number ≠ (f.fakeFail : Int) →
        (VerifySeal f chain h).out = .returned none) ∧
    (∀ d : Int, (VerifySeal { f with fakeDelay := d } chain h).out =
        (VerifySeal f chain h).out) := by
  refine ⟨?_, ?_, ?_, ?_, ?_⟩
  · rw [verifySeal_out]
    by_cases hc : f.fakeFail = Uint64 h.Number
    · simp [hc]
    · simp [hc, eq_comm]
  · rw [verifySeal_out]
    by_cases hc : f.fakeFail = Uint64 h.Number
    · simp [hc]
    · simp [hc, eq_comm]
  · intro hlt hn
    exact verifySeal_rejects_number f chain h hlt hn
  · intro h0 h1 hne
    rw [verifySeal_out]
    have hu : (Uint64 h.Number : Int) = h.Number := uint64_of_lt h.Number h0 h1
    have hc : ¬ f.fakeFail = Uint64 h.Number := by
      intro hc
      apply hne
      rw [hc]
      exact hu.symm
    simp [hc]
  · intro d
    rfl

/-- C1, an instance: engine with `failAt = 5` and a delay, header numbers 5 and 6. -/
theorem verifySeal_failAt_witness :
    (VerifySeal { NewFakeFailer strictHeld 5 with fakeDelay := 30 } emptyChain
        (headerAt 5)).out = .returned (some .errInvalidPoW) ∧
    (VerifySeal { NewFakeFailer strictHeld 5 with fakeDelay := 30 } emptyChain
        (headerAt 6)).out = .returned none :=
  ⟨(verifySeal_failAt { NewFakeFailer strictHeld 5 with fakeDelay := 30 } emptyChain
      (headerAt 5)).2.2.1 (by decide) (by decide),
   (verifySeal_failAt { NewFakeFailer strictHeld 5 with fakeDelay := 30 } emptyChain
      (headerAt 6)).2.2.2.1 (by decide) (by decide) (by decide)⟩

/-- C1, as written, fails: with `failAt = 5` the header numbered `2^64 + 5` has
a number different from `failAt`, and `VerifySeal` rejects it all the same. -/
theorem verifySeal_failAt_counterexample :
    (headerAt (2 ^ 64 + 5)).Number ≠ ((NewFakeFailer strictHeld 5).fakeFail : Int) ∧
    (VerifySeal (NewFakeFailer strictHeld 5) emptyChain (headerAt (2 ^ 64 + 5))).out =
      .returned (some .errInvalidPoW) := by
  constructor
  · decide
  · decide

/-- C2: `VerifyHeader` calls the held `VerifyHeader` once with the flag off; an
error of that call is returned as it is (and nothing else happens); after a
`nil` the result is that of `VerifySeal` on the same header when the flag is on
and `nil` when it is off.  With the flag off the whole run is the single held
call: no `VerifySeal` call and no sleep. -/
theorem verifyHeader_delegates (f : FakeEthash) (chain : ChainReader) (H : Header)
    (checkSeal : Bool) (sysCall : SystemCall) :
    VerifyHeader f chain H checkSeal sysCall =
      (match f.Ethash.VerifyHeader chain H false sysCall with
       | some e => ⟨[.heldVerifyHeader H false], .returned (some e)⟩
       | none =>
         if checkSeal then
           ⟨.heldVerifyHeader H false :: (VerifySeal f chain H).trace,
            (VerifySeal f chain H).out⟩
         else ⟨[.heldVerifyHeader H false], .returned none⟩) ∧
    VerifyHeader f chain H false sysCall =
      ⟨[.heldVerifyHeader H false],
       .returned (f.Ethash.VerifyHeader chain H false sysCall)⟩ ∧
    (∀ h, Event.callVerifySeal h ∉ (VerifyHeader f chain H false sysCall).trace) ∧
    (∀ d, Event.sleep d ∉ (VerifyHeader f chain H false sysCall).trace) := by
  have h2 : VerifyHeader f chain H false sysCall =
      ⟨[.heldVerifyHeader H false],
       .returned (f.Ethash.VerifyHeader chain H false sysCall)⟩ := by
    unfold VerifyHeader Run.held
    cases f.Ethash.VerifyHeader chain H false sysCall with
    | none => simp [Run.andThen, Run.nil]
    | some e => simp [Run.andThen]
  refine ⟨?_, h2, ?_, ?_⟩
  · unfold VerifyHeader Run.held
    cases f.Ethash.VerifyHeader chain H false sysCall with
    | none => cases checkSeal <;> simp [Run.andThen, Run.nil]
    | some e => simp [Run.andThen]
  · intro h
    rw [h2]
    simp
  · intro d
    rw [h2]
    simp

/-! ### Lemmas on the batch loop -/

theorem andThen_out (r k : Run) :
    (r.andThen k).out = if r.out = .returned none then k.out else r.out := by
  by_cases h : r.out = .returned none
  · rw [andThen_of_ok r k h]
    simp [h]
  · rw [andThen_of_not_ok r k h]
    simp [h]

theorem sealLoop_eq_sealWalk (f : FakeEthash) (chain : ChainReader) (seals : List Bool) :
    ∀ (hs : List Header) (i : Nat),
      sealLoop f chain seals i hs = sealWalk f chain hs (seals.drop i) := by
  intro hs
  induction hs with
  | nil => intro i; simp [sealLoop, sealWalk]
  | cons h rest ih =>
    intro i
    by_cases hi : i < seals.length
    · rw [List.drop_eq_getElem_cons hi]
      unfold sealLoop
      rw [List.getElem?_eq_getElem hi]
      cases hb : seals[i] with
      | true => simp only [sealWalk]; rw [ih]
      | false => simp only [sealWalk]; rw [ih]
    · have hle : seals.length ≤ i := Nat.le_of_not_lt hi
      unfold sealLoop
      rw [List.getElem?_eq_none hle, List.drop_eq_nil_of_le hle]
      simp [sealWalk]

theorem verifySeal_out_cases (f : FakeEthash) (chain : ChainReader) (h : Header) :
    (sealFails f h = true ∧ (VerifySeal f chain h).out = .returned (some .errInvalidPoW)) ∨
    (sealFails f h = false ∧ (VerifySeal f chain h).out = .returned none) := by
  rw [verifySeal_out]
  by_cases hc : f.fakeFail = Uint64 h.Number
  · left; simp [sealFails, hc]
  · right; simp [sealFails, hc]

theorem sealWalk_eq (f : FakeEthash) (chain : ChainReader) :
    ∀ (hs : List Header) (ss : List Bool), hs.length = ss.length →
      sealWalk f chain hs ss =
        ⟨(sealChecked f (flagged hs ss)).flatMap (fun h => (VerifySeal f chain h).trace),
         if (flagged hs ss).any (sealFails f) then .returned (some .errInvalidPoW)
         else .returned none⟩ := by
  intro hs
  induction hs with
  | nil => intro ss _; simp [sealWalk, flagged, sealChecked, Run.nil]
  | cons h rest ih =>
    intro ss hlen
    cases ss with
    | nil => simp at hlen
    | cons s ss =>
      have hl : rest.length = ss.length := by simpa using hlen
      cases s with
      | false =>
        have hf : flagged (h :: rest) (false :: ss) = flagged rest ss := by
          simp [flagged]
        rw [hf]
        simp only [sealWalk]
        exact ih ss hl
      | true =>
        have hf : flagged (h :: rest) (true :: ss) = h :: flagged rest ss := by
          simp [flagged]
        rw [hf]
        simp only [sealWalk]
        rw [ih ss hl]
        rcases verifySeal_out_cases f chain h with ⟨hb, ho⟩ | ⟨hb, ho⟩
        · rw [andThen_of_not_ok _ _ (by rw [ho]; simp)]
          simp [sealChecked, hb, ho]
          rw [← ho]
        · rw [andThen_of_ok _ _ ho]
          simp [sealChecked, hb]

theorem firstError_eq_none (l : List (Option GoError)) :
    firstError l = none ↔ ∀ x ∈ l, x = none := by
  induction l with
  | nil => simp [firstError]
  | cons x rest ih =>
    cases x with
    | none => simp [firstError, ih]
    | some e => simp [firstError]

theorem verifyHeader_out (f : FakeEthash) (chain : ChainReader) (h : Header) (s : Bool)
    (sysCall : SystemCall) :
    (VerifyHeader f chain h s sysCall).out =
      match f.Ethash.VerifyHeader chain h false sysCall with
      | some e => .returned (some e)
      | none => if s then (VerifySeal f chain h).out else .returned none := by
  unfold VerifyHeader Run.held
  cases f.Ethash.VerifyHeader chain h false sysCall with
  | none => cases s <;> simp [Run.andThen, Run.nil]
  | some e => simp [Run.andThen]

theorem perElement_cons (f : FakeEthash) (chain : ChainReader) (sysCall : SystemCall)
    (h : Header) (hs : List Header) (s : Bool) (ss : List Bool) :
    verifyHeadersPerElement f chain sysCall (h :: hs) (s :: ss) =
      (VerifyHeader f chain h s sysCall).andThen
        (verifyHeadersPerElement f chain sysCall hs ss) := rfl

theorem perElement_out_of_structural_ok (f : FakeEthash) (chain : ChainReader)
    (sysCall : SystemCall) :
    ∀ (hs : List Header) (ss : List Bool), hs.length = ss.length →
      (∀ h ∈ hs, f.Ethash.VerifyHeader chain h false sysCall = none) →
      (verifyHeadersPerElement f chain sysCall hs ss).out = (sealWalk f chain hs ss).out := by
  intro hs
  induction hs with
  | nil => intro ss _ _; simp [verifyHeadersPerElement, firstFailure, sealWalk]
  | cons h rest ih =>
    intro ss hlen hok
    cases ss with
    | nil => simp at hlen
    | cons s ss =>
      have hl : rest.length = ss.length := by simpa using hlen
      have hh : f.Ethash.VerifyHeader chain h false sysCall = none :=
        hok h (List.mem_cons_self _ _)
      have hr : ∀ x ∈ rest, f.Ethash.VerifyHeader chain x false sysCall = none :=
        fun x hx => hok x (List.mem_cons_of_mem _ hx)
      rw [perElement_cons, andThen_out, verifyHeader_out, hh, ih ss hl hr]
      cases s with
      | false => simp [sealWalk]
      | true => simp [sealWalk, andThen_out]

theorem perElement_out_of_structural_err (f : FakeEthash) (chain : ChainReader)
    (sysCall : SystemCall) (e : GoError) :
    ∀ (hs : List Header) (ss : List Bool), hs.length = ss.length →
      firstError (hs.map fun h => f.Ethash.VerifyHeader chain h false sysCall) = some e →
      (verifyHeadersPerElement f chain sysCall hs ss).out = .returned (some e) ∨
      (verifyHeadersPerElement f chain sysCall hs ss).out = .returned (some .errInvalidPoW) := by
  intro hs
  induction hs with
  | nil => intro ss _ he; simp [firstError] at he
  | cons h rest ih =>
    intro ss hlen he
    cases ss with
    | nil => simp at hlen
    | cons s ss =>
      have hl : rest.length = ss.length := by simpa using hlen
      rw [perElement_cons, andThen_out, verifyHeader_out]
      cases hh : f.Ethash.VerifyHeader chain h false sysCall with
      | some e1 =>
        simp only [List.map_cons, hh, firstError] at he
        left
        simp only [Option.some.injEq] at he
        subst he
        simp
      | none =>
        simp only [List.map_cons, hh, firstError] at he
        cases s with
        | false => simpa using ih ss hl he
        | true =>
          rcases verifySeal_out_cases f chain h with ⟨_, ho⟩ | ⟨_, ho⟩
          · right; simp [ho]
          · simpa [ho] using ih ss hl he

/-- C3, as the code has it: for equally long lists, and a held batch check that
returns the first error of the held single checks, `VerifyHeaders` succeeds
exactly when the per-element run succeeds; when every header passes the held
structural check the two return the same result; when some header fails it,
`VerifyHeaders` returns the first structural error, and the per-element run
returns that error or the invalid-seal error of an earlier header. -/
theorem verifyHeaders_vs_perElement (f : FakeEthash) (chain : ChainReader)
    (sysCall : SystemCall) (headers : List Header) (seals : List Bool)
    (hlen : headers.length = seals.length)
    (hheld : HeldBatchContract f.Ethash chain sysCall headers) :
    ((VerifyHeaders f chain headers seals).out = .returned none ↔
      (verifyHeadersPerElement f chain sysCall headers seals).out = .returned none) ∧
    ((∀ h ∈ headers, f.Ethash.VerifyHeader chain h false sysCall = none) →
      (VerifyHeaders f chain headers seals).out =
        (verifyHeadersPerElement f chain sysCall headers seals).out) ∧
    (∀ e, firstError (headers.map fun h => f.Ethash.VerifyHeader chain h false sysCall)
          = some e →
      (VerifyHeaders f chain headers seals).out = .returned (some e) ∧
      ((verifyHeadersPerElement f chain sysCall headers seals).out = .returned (some e) ∨
       (verifyHeadersPerElement f chain sysCall headers seals).out =
         .returned (some .errInvalidPoW))) := by
  unfold HeldBatchContract at hheld
  have hok : (∀ h ∈ headers, f.Ethash.VerifyHeader chain h false sysCall = none) →
      (VerifyHeaders f chain headers seals).out =
        (verifyHeadersPerElement f chain sysCall headers seals).out := by
    intro hall
    have hn : firstError (headers.map fun h => f.Ethash.VerifyHeader chain h false sysCall)
        = none := by
      rw [firstError_eq_none]
      intro x hx
      obtain ⟨h, hh, rfl⟩ := List.mem_map.mp hx
      exact hall h hh
    unfold VerifyHeaders Run.held
    simp only [← hlen, hheld, hn]
    rw [andThen_ok, sealLoop_eq_sealWalk, List.drop_zero]
    exact (perElement_out_of_structural_ok f chain sysCall headers seals hlen hall).symm
  have herr : ∀ e,
      firstError (headers.map fun h => f.Ethash.VerifyHeader chain h false sysCall) = some e →
      (VerifyHeaders f chain headers seals).out = .returned (some e) ∧
      ((verifyHeadersPerElement f chain sysCall headers seals).out = .returned (some e) ∨
       (verifyHeadersPerElement f chain sysCall headers seals).out =
         .returned (some .errInvalidPoW)) := by
    intro e he
    refine ⟨?_, perElement_out_of_structural_err f chain sysCall e headers seals hlen he⟩
    unfold VerifyHeaders Run.held
    simp only [← hlen, hheld, he]
    rfl
  refine ⟨?_, hok, herr⟩
  cases hfe : firstError (headers.map fun h => f.Ethash.VerifyHeader chain h false sysCall) with
  | none =>
    have hall : ∀ h ∈ headers, f.Ethash.VerifyHeader chain h false sysCall = none := by
      intro h hh
      exact (firstError_eq_none _).mp hfe _ (List.mem_map.mpr ⟨h, hh, rfl⟩)
    rw [hok hall]
  | some e =>
    obtain ⟨h1, h2⟩ := herr e hfe
    rw [h1]
    rcases h2 with h2 | h2
    · rw [h2]
    · rw [h2]; simp

/-- C3, an instance: three headers that pass the structural rule of `strictHeld`,
the middle one at `failAt`, flags on, off, on; and two headers of which the second
breaks the structural rule. -/
theorem verifyHeaders_vs_perElement_witness :
    ((VerifyHeaders (NewFakeFailer strictHeld 5) emptyChain
        [headerAt 4, headerAt 5, headerAt 6] [true, false, true]).out = .returned none ↔
      (verifyHeadersPerElement (NewFakeFailer strictHeld 5) emptyChain idSysCall
        [headerAt 4, headerAt 5, headerAt 6] [true, false, true]).out = .returned none) ∧
    (VerifyHeaders (NewFakeFailer strictHeld 5) emptyChain
        [headerAt 4, headerAt 5, headerAt 6] [true, false, true]).out =
      (verifyHeadersPerElement (NewFakeFailer strictHeld 5) emptyChain idSysCall
        [headerAt 4, headerAt 5, headerAt 6] [true, false, true]).out ∧
    (VerifyHeaders (NewFakeFailer strictHeld 5) emptyChain
        [headerAt 4, badHeaderAt 6] [true, true]).out = .returned (some (.structural 1)) :=
  ⟨(verifyHeaders_vs_perElement (NewFakeFailer strictHeld 5) emptyChain idSysCall
      [headerAt 4, headerAt 5, headerAt 6] [true, false, true] (by decide) (by rfl)).1,
   (verifyHeaders_vs_perElement (NewFakeFailer strictHeld 5) emptyChain idSysCall
      [headerAt 4, headerAt 5, headerAt 6] [true, false, true] (by decide) (by rfl)).2.1
      (by decide),
   ((verifyHeaders_vs_perElement (NewFakeFailer strictHeld 5) emptyChain idSysCall
      [headerAt 4, badHeaderAt 6] [true, true] (by decide) (by rfl)).2.2
      (.structural 1) (by decide)).1⟩

/-- C3, as written, fails: `strictHeld` honours the per-element contract, the
lists are equally long, header 5 (flag on) is at `failAt` and header 6 breaks the
structural rule; the batch call reports the structural error of the second
header, the per-element run the invalid seal of the first. -/
theorem verifyHeaders_vs_perElement_counterexample :
    [headerAt 5, badHeaderAt 6].length = [true, false].length ∧
    HeldBatchContract (NewFakeFailer strictHeld 5).Ethash emptyChain idSysCall
      [headerAt 5, badHeaderAt 6] ∧
    (VerifyHeaders (NewFakeFailer strictHeld 5) emptyChain
        [headerAt 5, badHeaderAt 6] [true, false]).out = .returned (some (.structural 1)) ∧
    (verifyHeadersPerElement (NewFakeFailer strictHeld 5) emptyChain idSysCall
        [headerAt 5, badHeaderAt 6] [true, false]).out = .returned (some .errInvalidPoW) := by
  refine ⟨by decide, by rfl, by decide, by decide⟩

/-- C4: for equally long lists `VerifyHeaders` first calls the held batch check
with a list of `false` flags of the same length and returns its error as it is;
after a `nil` it calls `VerifySeal` on the headers whose own flag is on, in input
order, up to and including the first one that fails, and returns the invalid-seal
error of that one, or `nil` when none fails. -/
theorem verifyHeaders_steps (f : FakeEthash) (chain : ChainReader)
    (headers : List Header) (seals : List Bool) (hlen : headers.length = seals.length) :
    (∀ e, f.Ethash.VerifyHeaders chain headers (List.replicate headers.length false) = some e →
      VerifyHeaders f chain headers seals =
        ⟨[.heldVerifyHeaders headers (List.replicate headers.length false)],
         .returned (some e)⟩) ∧
    (f.Ethash.VerifyHeaders chain headers (List.replicate headers.length false) = none →
      VerifyHeaders f chain headers seals =
        ⟨.heldVerifyHeaders headers (List.replicate headers.length false) ::
           (sealChecked f (flagged headers seals)).flatMap
             (fun h => (VerifySeal f chain h).trace),
         if (flagged headers seals).any (sealFails f) then .returned (some .errInvalidPoW)
         else .returned none⟩) := by
  constructor
  · intro e he
    unfold VerifyHeaders Run.held
    simp only [← hlen, he]
    rfl
  · intro hn
    unfold VerifyHeaders Run.held
    simp only [← hlen, hn]
    rw [andThen_ok, sealLoop_eq_sealWalk, List.drop_zero, sealWalk_eq f chain headers seals hlen]
    rfl

/-- C4, an instance: flags on, off, on, on with the second and third header at
`failAt`; the seal check runs on the first and third header only.  And a batch
that the held engine rejects: no seal check runs. -/
theorem verifyHeaders_steps_witness :
    VerifyHeaders (NewFakeFailer strictHeld 5) emptyChain
        [headerAt 4, headerAt 5, headerAt 5, headerAt 6] [true, false, true, true] =
      ⟨[.heldVerifyHeaders [headerAt 4, headerAt 5, headerAt 5, headerAt 6]
          [false, false, false, false],
        .callVerifySeal (headerAt 4), .callVerifySeal (headerAt 5)],
       .returned (some .errInvalidPoW)⟩ ∧
    VerifyHeaders (NewFakeFailer strictHeld 5) emptyChain
        [headerAt 5, badHeaderAt 6] [true, true] =
      ⟨[.heldVerifyHeaders [headerAt 5, badHeaderAt 6] [false, false]],
       .returned (some (.structural 1))⟩ :=
  ⟨(verifyHeaders_steps (NewFakeFailer strictHeld 5) emptyChain
      [headerAt 4, headerAt 5, headerAt 5, headerAt 6] [true, false, true, true]
      (by decide)).2 (by decide),
   (verifyHeaders_steps (NewFakeFailer strictHeld 5) emptyChain
      [headerAt 5, badHeaderAt 6] [true, true] (by decide)).1 (.structural 1) (by decide)⟩

/-! ### Lemmas on runs done in sequence -/

theorem firstFailure_out_ok_iff (l : List Run) :
    (firstFailure l).out = .returned none ↔ ∀ r ∈ l, r.out = .returned none := by
  induction l with
  | nil => simp [firstFailure, Run.nil]
  | cons r rest ih => simp [firstFailure, andThen_out_ok_iff, ih]

theorem firstFailure_all_ok (l : List Run) (h : ∀ r ∈ l, r.out = .returned none) :
    firstFailure l = ⟨l.flatMap (fun r => r.trace), .returned none⟩ := by
  induction l with
  | nil => simp [firstFailure, Run.nil]
  | cons r rest ih =>
    have hr : r.out = .returned none := h r (List.mem_cons_self _ _)
    have hrest : ∀ x ∈ rest, x.out = .returned none :=
      fun x hx => h x (List.mem_cons_of_mem _ hx)
    simp only [firstFailure]
    rw [andThen_of_ok _ _ hr, ih hrest]
    simp

theorem firstFailure_split (pre : List Run) (r : Run) (post : List Run)
    (hpre : ∀ x ∈ pre, x.out = .returned none) (hr : r.out ≠ .returned none) :
    firstFailure (pre ++ r :: post) = ⟨(pre ++ [r]).flatMap (fun x => x.trace), r.out⟩ := by
  induction pre with
  | nil =>
    simp only [List.nil_append, firstFailure]
    rw [andThen_of_not_ok _ _ hr]
    simp
  | cons x rest ih =>
    have hx : x.out = .returned none := hpre x (List.mem_cons_self _ _)
    have hrest : ∀ y ∈ rest, y.out = .returned none :=
      fun y hy => hpre y (List.mem_cons_of_mem _ hy)
    have hc : firstFailure (x :: rest ++ r :: post) =
        x.andThen (firstFailure (rest ++ r :: post)) := rfl
    rw [hc, andThen_of_ok _ _ hx, ih hrest]
    simp

theorem firstFailure_trace_mem (l : List Run) (e : Event) :
    e ∈ (firstFailure l).trace → ∃ r ∈ l, e ∈ r.trace := by
  induction l with
  | nil => simp [firstFailure, Run.nil]
  | cons r rest ih =>
    intro he
    simp only [firstFailure] at he
    by_cases hr : r.out = .returned none
    · rw [andThen_of_ok _ _ hr] at he
      simp only [List.mem_append] at he
      rcases he with he | he
      · exact ⟨r, List.mem_cons_self _ _, he⟩
      · obtain ⟨x, hx, hxe⟩ := ih he
        exact ⟨x, List.mem_cons_of_mem _ hx, hxe⟩
    · rw [andThen_of_not_ok _ _ hr] at he
      exact ⟨r, List.mem_cons_self _ _, he⟩

theorem firstFailure_out_of_two (l : List Run) (o : Outcome)
    (h : ∀ r ∈ l, r.out = .returned none ∨ r.out = o) :
    (firstFailure l).out = .returned none ∨ (firstFailure l).out = o := by
  induction l with
  | nil => left; rfl
  | cons r rest ih =>
    have hrest : ∀ x ∈ rest, x.out = .returned none ∨ x.out = o :=
      fun x hx => h x (List.mem_cons_of_mem _ hx)
    simp only [firstFailure]
    rw [andThen_out]
    rcases h r (List.mem_cons_self _ _) with hr | hr
    · simp only [hr, if_true]
      exact ih hrest
    · by_cases hc : r.out = .returned none
      · simp only [hc, if_true]
        exact ih hrest
      · simp only [hc, if_false]
        right
        exact hr

theorem uncleLoop_eq_firstFailure (f : FakeEthash) (chain : ChainReader) (header : Header) :
    ∀ (uncles : List Header) (pool : UncleSet) (window : Ancestors),
      uncleLoop f chain header pool window uncles =
        firstFailure (uncleChecks f chain header pool window uncles) := by
  intro uncles
  induction uncles with
  | nil => intro pool window; rfl
  | cons u rest ih =>
    intro pool window
    simp only [uncleLoop, uncleChecks, firstFailure, ih]

theorem verifyUncle_run (f : FakeEthash) (chain : ChainReader) (block uncle : Header)
    (uncles : UncleSet) (ancestors : Ancestors) (checkSeal : Bool) :
    (VerifyUncle f chain block uncle uncles ancestors checkSeal).run =
      (match (f.Ethash.VerifyUncle chain block uncle uncles ancestors false).1 with
       | some e =>
         ⟨[.callVerifyUncle block uncle checkSeal, .heldVerifyUncle block uncle false],
          .returned (some e)⟩
       | none =>
         if checkSeal then
           ⟨.callVerifyUncle block uncle checkSeal :: .heldVerifyUncle block uncle false ::
              (VerifySeal f chain uncle).trace,
            (VerifySeal f chain uncle).out⟩
         else
           ⟨[.callVerifyUncle block uncle checkSeal, .heldVerifyUncle block uncle false],
            .returned none⟩) := by
  unfold VerifyUncle Run.held
  cases h : (f.Ethash.VerifyUncle chain block uncle uncles ancestors false).1 with
  | none => cases checkSeal <;> simp [Run.andThen, Run.nil, h]
  | some e => simp [Run.andThen, h]

theorem verifyUncle_out (f : FakeEthash) (chain : ChainReader) (block uncle : Header)
    (uncles : UncleSet) (ancestors : Ancestors) :
    (VerifyUncle f chain block uncle uncles ancestors true).run.out =
      match (f.Ethash.VerifyUncle chain block uncle uncles ancestors false).1 with
      | some e => .returned (some e)
      | none => (VerifySeal f chain uncle).out := by
  rw [verifyUncle_run]
  cases (f.Ethash.VerifyUncle chain block uncle uncles ancestors false).1 with
  | none => simp
  | some e => simp

theorem verifyUncle_no_getUncles (f : FakeEthash) (chain : ChainReader) (block uncle : Header)
    (uncles : UncleSet) (ancestors : Ancestors) (h : Header) :
    Event.getUncles h ∉ (VerifyUncle f chain block uncle uncles ancestors true).run.trace := by
  rw [verifyUncle_run]
  cases (f.Ethash.VerifyUncle chain block uncle uncles ancestors false).1 with
  | none =>
    simp only [if_true, VerifySeal]
    by_cases hd : f.fakeDelay > 0 <;> simp [hd]
  | some e => simp

theorem verifyUncle_trace_take (f : FakeEthash) (chain : ChainReader) (block uncle : Header)
    (uncles : UncleSet) (ancestors : Ancestors) :
    (VerifyUncle f chain block uncle uncles ancestors true).run.trace.take 2 =
      [.callVerifyUncle block uncle true, .heldVerifyUncle block uncle false] := by
  rw [verifyUncle_run]
  cases (f.Ethash.VerifyUncle chain block uncle uncles ancestors false).1 with
  | none => simp
  | some e => simp

theorem uncleChecks_mem (f : FakeEthash) (chain : ChainReader) (header : Header) :
    ∀ (uncles : List Header) (pool : UncleSet) (window : Ancestors) (r : Run),
      r ∈ uncleChecks f chain header pool window uncles →
      ∃ u ∈ uncles, ∃ p w, r = (VerifyUncle f chain header u p w true).run := by
  intro uncles
  induction uncles with
  | nil => intro pool window r hr; simp [uncleChecks] at hr
  | cons u rest ih =>
    intro pool window r hr
    simp only [uncleChecks, List.mem_cons] at hr
    rcases hr with hr | hr
    · exact ⟨u, List.mem_cons_self _ _, pool, window, hr⟩
    · obtain ⟨v, hv, p, w, hvr⟩ := ih _ _ r hr
      exact ⟨v, List.mem_cons_of_mem _ hv, p, w, hvr⟩

theorem uncleChecks_of_mem (f : FakeEthash) (chain : ChainReader) (header : Header) :
    ∀ (uncles : List Header) (pool : UncleSet) (window : Ancestors) (u : Header),
      u ∈ uncles →
      ∃ p w, (VerifyUncle f chain header u p w true).run ∈
        uncleChecks f chain header pool window uncles := by
  intro uncles
  induction uncles with
  | nil => intro pool window u hu; simp at hu
  | cons v rest ih =>
    intro pool window u hu
    rcases List.mem_cons.mp hu with hu | hu
    · subst hu
      exact ⟨pool, window, by simp [uncleChecks]⟩
    · obtain ⟨p, w, hm⟩ := ih
        (VerifyUncle f chain header v pool window true).uncles
        (VerifyUncle f chain header v pool window true).ancestors u hu
      exact ⟨p, w, by simp only [uncleChecks]; exact List.mem_cons_of_mem _ hm⟩

theorem uncleChecks_starts (f : FakeEthash) (chain : ChainReader) (header : Header) :
    ∀ (uncles : List Header) (pool : UncleSet) (window : Ancestors),
      (uncleChecks f chain header pool window uncles).map (fun r => r.trace.take 2) =
        uncles.map (fun u =>
          [Event.callVerifyUncle header u true, Event.heldVerifyUncle header u false]) := by
  intro uncles
  induction uncles with
  | nil => intro pool window; rfl
  | cons u rest ih =>
    intro pool window
    simp only [uncleChecks, List.map_cons, ih, verifyUncle_trace_take]

theorem uncleChecks_out_of_held_ok (f : FakeEthash) (chain : ChainReader) (header : Header) :
    ∀ (uncles : List Header) (pool : UncleSet) (window : Ancestors),
      (∀ e ∈ heldUncleErrors f.Ethash chain header pool window uncles, e = none) →
      ∀ r ∈ uncleChecks f chain header pool window uncles,
        r.out = .returned none ∨ r.out = .returned (some .errInvalidPoW) := by
  intro uncles
  induction uncles with
  | nil => intro pool window _ r hr; simp [uncleChecks] at hr
  | cons u rest ih =>
    intro pool window hok r hr
    simp only [heldUncleErrors, List.mem_cons, forall_eq_or_imp] at hok
    simp only [uncleChecks, List.mem_cons] at hr
    rcases hr with hr | hr
    · rw [hr, verifyUncle_out, hok.1]
      rcases verifySeal_out_cases f chain u with ⟨_, ho⟩ | ⟨_, ho⟩
      · right; exact ho
      · left; exact ho
    · exact ih _ _ hok.2 r hr

theorem verifyUncles_eq (f : FakeEthash) (chain : ChainReader) (header : Header)
    (uncles : List Header) (h1 : 1 ≤ uncles.length) (h2 : uncles.length ≤ maxUncles) :
    VerifyUncles f chain header uncles =
      ⟨.getUncles header :: (firstFailure (uncleRuns f chain header uncles)).trace,
       (firstFailure (uncleRuns f chain header uncles)).out⟩ := by
  unfold VerifyUncles
  have ha : ¬ uncles.length > maxUncles := by omega
  have hb : ¬ uncles.length = 0 := by omega
  simp only [ha, hb, if_false]
  rw [andThen_ok, uncleLoop_eq_firstFailure]
  rfl

/-- C5: more than `maxUncles` (= 2) uncles give the too-many-uncles error, whatever
the engine, chain, header and uncles are, and the run makes no call at all: no
chain-reader call, no `VerifyUncle`, no `VerifySeal`. -/
theorem verifyUncles_tooMany (f : FakeEthash) (chain : ChainReader) (header : Header)
    (uncles : List Header) (h : maxUncles < uncles.length) :
    maxUncles = 2 ∧
    VerifyUncles f chain header uncles = ⟨[], .returned (some .errTooManyUncles)⟩ := by
  refine ⟨rfl, ?_⟩
  unfold VerifyUncles
  simp [h]

/-- C5, an instance: three uncles, the first of them at `failAt`. -/
theorem verifyUncles_tooMany_witness :
    maxUncles = 2 ∧
    VerifyUncles { NewFakeFailer strictHeld 5 with fakeDelay := 30 } emptyChain (headerAt 9)
        [headerAt 5, badHeaderAt 6, headerAt 7] =
      ⟨[], .returned (some .errTooManyUncles)⟩ :=
  verifyUncles_tooMany { NewFakeFailer strictHeld 5 with fakeDelay := 30 } emptyChain
    (headerAt 9) [headerAt 5, badHeaderAt 6, headerAt 7] (by decide)

/-- C6, as the code has it: with between 1 and `maxUncles` uncles, `VerifyUncles` makes one
`getUncles` call and then runs `VerifyUncle` on the uncles in list order, each
with the block, the uncle, the flag on, and the pool and window as the call
before left them (`uncleRuns`): it succeeds exactly when every such run succeeds,
in which case all of them ran; otherwise it returns the result of the first run
that fails, and no later uncle is verified.  So a list of uncles that each verify
succeeds, whatever its length within the bound; a list with an uncle whose
number is `failAt` fails; and it fails with the invalid-seal error when the held
structural check passes on all uncles in that sequence. -/
theorem verifyUncles_each (f : FakeEthash) (chain : ChainReader) (header : Header)
    (uncles : List Header) (h1 : 1 ≤ uncles.length) (h2 : uncles.length ≤ maxUncles) :
    (∃ t, (VerifyUncles f chain header uncles).trace = .getUncles header :: t ∧
        ∀ h, Event.getUncles h ∉ t) ∧
    (uncleRuns f chain header uncles).map (fun r => r.trace.take 2) =
        uncles.map (fun u =>
          [Event.callVerifyUncle header u true, Event.heldVerifyUncle header u false]) ∧
    ((VerifyUncles f chain header uncles).out = .returned none ↔
        ∀ r ∈ uncleRuns f chain header uncles, r.out = .returned none) ∧
    ((∀ r ∈ uncleRuns f chain header uncles, r.out = .returned none) →
        VerifyUncles f chain header uncles =
          ⟨.getUncles header :: (uncleRuns f chain header uncles).flatMap (fun r => r.trace),
           .returned none⟩) ∧
    (∀ pre r post, uncleRuns f chain header uncles = pre ++ r :: post →
        (∀ x ∈ pre, x.out = .returned none) → r.out ≠ .returned none →
        VerifyUncles f chain header uncles =
          ⟨.getUncles header :: (pre ++ [r]).flatMap (fun x => x.trace), r.out⟩) ∧
    (f.fakeFail < 2 ^ 64 → (∃ u ∈ uncles, u.Number = (f.fakeFail : Int)) →
        (VerifyUncles f chain header uncles).out ≠ .returned none ∧
        ((∀ e ∈ heldUncleErrors f.Ethash chain header (f.Ethash.getUncles chain header).1
              (f.Ethash.getUncles chain header).2 uncles, e = none) →
          (VerifyUncles f chain header uncles).out = .returned (some .errInvalidPoW))) := by
  have heq := verifyUncles_eq f chain header uncles h1 h2
  have hiff : (VerifyUncles f chain header uncles).out = .returned none ↔
      ∀ r ∈ uncleRuns f chain header uncles, r.out = .returned none := by
    rw [heq]
    exact firstFailure_out_ok_iff _
  refine ⟨?_, uncleChecks_starts f chain header uncles _ _, hiff, ?_, ?_, ?_⟩
  · refine ⟨(firstFailure (uncleRuns f chain header uncles)).trace, ?_, ?_⟩
    · rw [heq]
    · intro h hmem
      obtain ⟨r, hr, he⟩ := firstFailure_trace_mem _ _ hmem
      obtain ⟨u, _, p, w, rfl⟩ := uncleChecks_mem f chain header uncles _ _ r hr
      exact verifyUncle_no_getUncles f chain header u p w h he
  · intro hall
    rw [heq, firstFailure_all_ok _ hall]
  · intro pre r post hsplit hpre hr
    rw [heq, hsplit, firstFailure_split _ _ _ hpre hr]
  · rintro hlt ⟨u, hu, hnum⟩
    have hbad : (VerifySeal f chain u).out = .returned (some .errInvalidPoW) :=
      verifySeal_rejects_number f chain u hlt hnum
    have hne : (VerifyUncles f chain header uncles).out ≠ .returned none := by
      intro hok
      obtain ⟨p, w, hm⟩ := uncleChecks_of_mem f chain header uncles
        (f.Ethash.getUncles chain header).1 (f.Ethash.getUncles chain header).2 u hu
      have hu2 := hiff.mp hok _ hm
      rw [verifyUncle_out] at hu2
      cases hh : (f.Ethash.VerifyUncle chain header u p w false).1 with
      | none => rw [hh] at hu2; simp [hbad] at hu2
      | some e => rw [hh] at hu2; simp at hu2
    refine ⟨hne, ?_⟩
    intro hstruct
    have htwo := firstFailure_out_of_two (uncleRuns f chain header uncles)
      (.returned (some .errInvalidPoW))
      (uncleChecks_out_of_held_ok f chain header uncles _ _ hstruct)
    rw [heq] at hne ⊢
    rcases htwo with h | h
    · exact absurd h hne
    · exact h

/-- C6, an instance: exactly `maxUncles` uncles that pass the uncle rule of
`strictHeld`.  With numbers 4 and 6 and `failAt = 5` the call succeeds; with
numbers 4 and 5 it fails, and with the invalid-seal error. -/
theorem verifyUncles_each_witness :
    (VerifyUncles (NewFakeFailer strictHeld 5) emptyChain (headerAt 9)
        [headerAt 4, headerAt 6]).out = .returned none ∧
    (VerifyUncles (NewFakeFailer strictHeld 5) emptyChain (headerAt 9)
        [headerAt 4, headerAt 5]).out ≠ .returned none ∧
    (VerifyUncles (NewFakeFailer strictHeld 5) emptyChain (headerAt 9)
        [headerAt 4, headerAt 5]).out = .returned (some .errInvalidPoW) :=
  ⟨(verifyUncles_each (NewFakeFailer strictHeld 5) emptyChain (headerAt 9)
      [headerAt 4, headerAt 6] (by decide) (by decide)).2.2.1.mpr (by decide),
   ((verifyUncles_each (NewFakeFailer strictHeld 5) emptyChain (headerAt 9)
      [headerAt 4, headerAt 5] (by decide) (by decide)).2.2.2.2.2 (by decide)
      ⟨headerAt 5, by decide, by decide⟩).1,
   ((verifyUncles_each (NewFakeFailer strictHeld 5) emptyChain (headerAt 9)
      [headerAt 4, headerAt 5] (by decide) (by decide)).2.2.2.2.2 (by decide)
      ⟨headerAt 5, by decide, by decide⟩).2 (by decide)⟩

/-- C6, as written, fails: on block 9 with `failAt = 5` and the two uncles
numbered 9 and 5, the list holds an uncle whose number is `failAt`, and the call
fails with the structural error of the first uncle (whose number the pool of
`strictHeld` already holds), not with the invalid-seal error. -/
theorem verifyUncles_each_counterexample :
    1 ≤ [headerAt 9, headerAt 5].length ∧
    [headerAt 9, headerAt 5].length ≤ maxUncles ∧
    headerAt 5 ∈ [headerAt 9, headerAt 5] ∧
    (headerAt 5).Number = ((NewFakeFailer strictHeld 5).fakeFail : Int) ∧
    (VerifyUncles (NewFakeFailer strictHeld 5) emptyChain (headerAt 9)
        [headerAt 9, headerAt 5]).out = .returned (some (.structural 2)) ∧
    (VerifyUncles (NewFakeFailer strictHeld 5) emptyChain (headerAt 9)
        [headerAt 9, headerAt 5]).out ≠ .returned (some .errInvalidPoW) := by
  refine ⟨by decide, by decide, by decide, by decide, by decide, by decide⟩

/-- C7: with no uncles `VerifyUncles` succeeds and the run is empty: no
`getUncles` (chain-reader) call, no `VerifyUncle` call, no `VerifySeal` call. -/
theorem verifyUncles_empty (f : FakeEthash) (chain : ChainReader) (header : Header) :
    VerifyUncles f chain header [] = ⟨[], .returned none⟩ := by
  unfold VerifyUncles
  simp [maxUncles, Run.nil]

/-- C8: `VerifyUncle` calls the held `VerifyUncle` once, with the chain, block,
uncle, pool and window it was given and the flag off, and leaves pool and window
as that call left them; an error of that call is returned as it is; after a `nil`
the result is that of `VerifySeal` on the uncle (not on the block) when the flag
is on, and `nil`, with no `VerifySeal` call, when it is off. -/
theorem verifyUncle_delegates (f : FakeEthash) (chain : ChainReader) (block uncle : Header)
    (uncles : UncleSet) (ancestors : Ancestors) (checkSeal : Bool) :
    (VerifyUncle f chain block uncle uncles ancestors checkSeal).run =
      (match (f.Ethash.VerifyUncle chain block uncle uncles ancestors false).1 with
       | some e =>
         ⟨[.callVerifyUncle block uncle checkSeal, .heldVerifyUncle block uncle false],
          .returned (some e)⟩
       | none =>
         if checkSeal then
           ⟨.callVerifyUncle block uncle checkSeal :: .heldVerifyUncle block uncle false ::
              (VerifySeal f chain uncle).trace,
            (VerifySeal f chain uncle).out⟩
         else
           ⟨[.callVerifyUncle block uncle checkSeal, .heldVerifyUncle block uncle false],
            .returned none⟩) ∧
    (VerifyUncle f chain block uncle uncles ancestors false).run =
      ⟨[.callVerifyUncle block uncle false, .heldVerifyUncle block uncle false],
       .returned (f.Ethash.VerifyUncle chain block uncle uncles ancestors false).1⟩ ∧
    ((VerifyUncle f chain block uncle uncles ancestors checkSeal).uncles,
     (VerifyUncle f chain block uncle uncles ancestors checkSeal).ancestors) =
      (f.Ethash.VerifyUncle chain block uncle uncles ancestors false).2 := by
  refine ⟨verifyUncle_run f chain block uncle uncles ancestors checkSeal, ?_, rfl⟩
  rw [verifyUncle_run]
  cases (f.Ethash.VerifyUncle chain block uncle uncles ancestors false).1 with
  | none => simp
  | some e => simp

/-- C9: when the sink can take a value, `Seal` returns `nil`, logs nothing, and
appends exactly one block to what the sink was given; that block has nonce and mix
digest zero, every other header field and the body as in the input block; the
input block is as it was. -/
theorem seal_delivers (f : FakeEthash) (chain : ChainReader) (block : Block)
    (results : ResultSink) (stop : Bool) (hready : 0 < results.room) :
    (Seal f chain block results stop).out = .returned none ∧
    (Seal f chain block results stop).trace = [] ∧
    (Seal f chain block results stop).block = block ∧
    ∃ b : Block,
      (Seal f chain block results stop).sink.delivered = results.delivered ++ [b] ∧
      b.header.Nonce = 0 ∧ b.header.MixDigest = 0 ∧
      b.header = { block.header with Nonce := 0, MixDigest := 0 } ∧
      b.uncles = block.uncles ∧ b.transactions = block.transactions := by
  obtain ⟨chan, delivered⟩ := results
  cases chan with
  | closed => exact absurd hready (Nat.lt_irrefl 0)
  | nilChan => exact absurd hready (Nat.lt_irrefl 0)
  | live n =>
    cases n with
    | zero => exact absurd hready (Nat.lt_irrefl 0)
    | succ k => exact ⟨rfl, rfl, rfl, _, rfl, rfl, rfl, rfl, rfl, rfl⟩

/-- C9, an instance: `sampleBlock`, whose nonce and mix digest are not zero, and a
sink with room for one value. -/
theorem seal_delivers_witness :
    (Seal (NewFaker strictHeld) emptyChain sampleBlock ⟨.live 1, []⟩ false).sink.delivered =
        [{ sampleBlock with header := { headerAt 8 with Nonce := 0, MixDigest := 0 } }] ∧
    (Seal (NewFaker strictHeld) emptyChain sampleBlock ⟨.live 1, []⟩ false).block = sampleBlock ∧
    sampleBlock.header.Nonce = 99 :=
  ⟨by
    obtain ⟨b, hb, _, _, hh, hu, ht⟩ :=
      (seal_delivers (NewFaker strictHeld) emptyChain sampleBlock ⟨.live 1, []⟩ false
        (by decide)).2.2.2
    rw [hb]
    cases b
    simp only at hh hu ht
    subst hh hu ht
    rfl,
   (seal_delivers (NewFaker strictHeld) emptyChain sampleBlock ⟨.live 1, []⟩ false
      (by decide)).2.2.1,
   rfl⟩

/-- C10, as the code has it: on a sink that is not closed `Seal` returns `nil`,
whether the sink has room or not and whether cancellation has fired or not; when
such a sink has no room, `Seal` leaves it as it was (nothing delivered), logs
exactly one warning, and leaves the input block as it was.  On a closed sink the
send panics, and nothing is delivered or logged. -/
theorem seal_drops (f : FakeEthash) (chain : ChainReader) (block : Block)
    (results : ResultSink) (stop : Bool) :
    (results.chan ≠ .closed → (Seal f chain block results stop).out = .returned none) ∧
    (results.chan ≠ .closed → results.room = 0 →
      (Seal f chain block results stop).sink = results ∧
      (Seal f chain block results stop).trace =
        [.logWarn "Sealing result is not read by miner" "fake"
          (f.Ethash.SealHash block.header)] ∧
      (Seal f chain block results stop).block = block) ∧
    (results.chan = .closed →
      (Seal f chain block results stop).out = .panicked "send on closed channel" ∧
      (Seal f chain block results stop).sink = results ∧
      (Seal f chain block results stop).trace = [] ∧
      (Seal f chain block results stop).block = block) := by
  obtain ⟨chan, delivered⟩ := results
  cases chan with
  | closed =>
    refine ⟨fun h => absurd rfl h, fun h => absurd rfl h, fun _ => ⟨rfl, rfl, rfl, rfl⟩⟩
  | nilChan =>
    refine ⟨fun _ => rfl, fun _ _ => ⟨rfl, rfl, rfl⟩, fun h => ?_⟩
    cases h
  | live n =>
    cases n with
    | zero =>
      refine ⟨fun _ => rfl, fun _ _ => ⟨rfl, rfl, rfl⟩, fun h => ?_⟩
      cases h
    | succ k =>
      refine ⟨fun _ => rfl, fun _ h0 => ?_, fun h => ?_⟩
      · exact absurd h0 (Nat.succ_ne_zero k)
      · cases h

/-- C10, instances: a live sink with no room and a nil sink, cancellation fired:
one warning, nothing delivered; and a closed sink: the send panics. -/
theorem seal_drops_witness :
    ((Seal (NewFaker strictHeld) emptyChain sampleBlock ⟨.live 0, []⟩ true).sink =
        ⟨.live 0, []⟩ ∧
      (Seal (NewFaker strictHeld) emptyChain sampleBlock ⟨.live 0, []⟩ true).trace =
        [.logWarn "Sealing result is not read by miner" "fake" 16] ∧
      (Seal (NewFaker strictHeld) emptyChain sampleBlock ⟨.live 0, []⟩ true).block =
        sampleBlock) ∧
    (Seal (NewFaker strictHeld) emptyChain sampleBlock ⟨.nilChan, []⟩ true).out =
      .returned none ∧
    (Seal (NewFaker strictHeld) emptyChain sampleBlock ⟨.closed, []⟩ true).trace = [] :=
  ⟨(seal_drops (NewFaker strictHeld) emptyChain sampleBlock ⟨.live 0, []⟩ true).2.1
      (by decide) rfl,
   (seal_drops (NewFaker strictHeld) emptyChain sampleBlock ⟨.nilChan, []⟩ true).1
      (by decide),
   ((seal_drops (NewFaker strictHeld) emptyChain sampleBlock ⟨.closed, []⟩ true).2.2
      rfl).2.2.1⟩

/-- C10, as written, fails: a closed sink has no ready receiver (it has room for
no value), and `Seal` on it does not return `nil`: the send panics. -/
theorem seal_drops_counterexample :
    (ResultSink.mk .closed []).room = 0 ∧
    (Seal (NewFaker strictHeld) emptyChain sampleBlock ⟨.closed, []⟩ false).out =
      .panicked "send on closed channel" ∧
    (Seal (NewFaker strictHeld) emptyChain sampleBlock ⟨.closed, []⟩ false).out ≠
      .returned none := by
  refine ⟨rfl, rfl, by decide⟩

/-! ### Lemmas on the truncated number -/

theorem uint64_of_nonneg (n : Int) (h0 : 0 ≤ n) : (Uint64 n : Int) = n % 2 ^ 64 := by
  obtain ⟨k, rfl⟩ := Int.eq_ofNat_of_zero_le h0
  unfold Uint64
  simp only [Int.natAbs_ofNat]
  norm_cast

theorem verifySeal_err_iff (f : FakeEthash) (chain : ChainReader) (h : Header) :
    (VerifySeal f chain h).out = .returned (some .errInvalidPoW) ↔
      Uint64 h.Number = f.fakeFail := by
  rw [verifySeal_out]
  by_cases hc : f.fakeFail = Uint64 h.Number
  · simp [hc]
  · simp [hc, eq_comm]

theorem verifySeal_ok_iff (f : FakeEthash) (chain : ChainReader) (h : Header) :
    (VerifySeal f chain h).out = .returned none ↔ Uint64 h.Number ≠ f.fakeFail := by
  rw [verifySeal_out]
  by_cases hc : f.fakeFail = Uint64 h.Number
  · simp [hc]
  · simp [hc, eq_comm]

/-! ### The claims on the bypass, the default engine and the failing block -/

/-- C11: the three verification methods of `FullFakeEthash` return `nil` on every
input, with an empty run (neither the held engine nor the chain reader is
called); so the result is the same for any two inputs. -/
theorem fullFake_accepts_all (f : FullFakeEthash) (chain : ChainReader) (header : Header)
    (checkSeal : Bool) (sysCall : SystemCall) (headers : List Header) (seals : List Bool)
    (uncles : List Header) :
    f.VerifyHeader chain header checkSeal sysCall = ⟨[], .returned none⟩ ∧
    f.VerifyHeaders chain headers seals = ⟨[], .returned none⟩ ∧
    f.VerifyUncles chain header uncles = ⟨[], .returned none⟩ ∧
    (∀ (g : FullFakeEthash) (c : ChainReader) (h : Header) (b : Bool) (sc : SystemCall),
      g.VerifyHeader c h b sc = f.VerifyHeader chain header checkSeal sysCall) ∧
    (∀ (g : FullFakeEthash) (c : ChainReader) (hs : List Header) (ss : List Bool),
      g.VerifyHeaders c hs ss = f.VerifyHeaders chain headers seals) ∧
    (∀ (g : FullFakeEthash) (c : ChainReader) (h : Header) (us : List Header),
      g.VerifyUncles c h us = f.VerifyUncles chain header uncles) :=
  ⟨rfl, rfl, rfl, fun _ _ _ _ _ => rfl, fun _ _ _ _ => rfl, fun _ _ _ _ => rfl⟩

/-- C12, the code at block 0: the engines of `NewFaker` and `NewFakeDelayer` have
`fakeFail = 0`, the zero value, and `VerifySeal` rejects the header numbered 0
with the invalid-seal error, while it accepts the header numbered 1. -/
theorem newFaker_rejects_block_zero :
    (VerifySeal (NewFaker strictHeld) emptyChain (headerAt 0)).out =
      .returned (some .errInvalidPoW) ∧
    (VerifySeal (NewFakeDelayer strictHeld 30) emptyChain (headerAt 0)).out =
      .returned (some .errInvalidPoW) ∧
    (VerifySeal (NewFaker strictHeld) emptyChain (headerAt 1)).out = .returned none := by
  refine ⟨by decide, by decide, by decide⟩

/-- C13, as the code has it: for a header that passes the held structural check,
`VerifyHeader` with the flag on fails with the invalid-seal error exactly when the
low 64 bits of the header number equal `failAt`, and succeeds otherwise; so for
`failAt` and header number in `[0, 2^64)` it fails with the invalid-seal error
iff the header number is `failAt`, and succeeds otherwise. -/
theorem verifyHeader_failAt (f : FakeEthash) (chain : ChainReader) (h : Header)
    (sysCall : SystemCall)
    (hstruct : f.Ethash.VerifyHeader chain h false sysCall = none) :
    ((VerifyHeader f chain h true sysCall).out = .returned (some .errInvalidPoW) ↔
        Uint64 h.Number = f.fakeFail) ∧
    ((VerifyHeader f chain h true sysCall).out = .returned none ↔
        Uint64 h.Number ≠ f.fakeFail) ∧
    (f.fakeFail < 2 ^ 64 → 0 ≤ h.Number → h.Number < 2 ^ 64 →
      ((VerifyHeader f chain h true sysCall).out = .returned (some .errInvalidPoW) ↔
          h.Number = (f.fakeFail : Int)) ∧
      ((VerifyHeader f chain h true sysCall).out = .returned none ↔
          h.Number ≠ (f.fakeFail : Int))) := by
  have ho : (VerifyHeader f chain h true sysCall).out = (VerifySeal f chain h).out := by
    rw [verifyHeader_out, hstruct]
    simp
  rw [ho]
  refine ⟨verifySeal_err_iff f chain h, verifySeal_ok_iff f chain h, ?_⟩
  intro _ h0 h1
  have hu : (Uint64 h.Number : Int) = h.Number := uint64_of_lt h.Number h0 h1
  rw [verifySeal_err_iff, verifySeal_ok_iff]
  constructor
  · constructor
    · intro he
      rw [← he]
      exact hu.symm
    · intro he
      have hc : (Uint64 h.Number : Int) = (f.fakeFail : Int) := hu.trans he
      exact_mod_cast hc
  · constructor
    · intro hne he
      apply hne
      have hc : (Uint64 h.Number : Int) = (f.fakeFail : Int) := hu.trans he
      exact_mod_cast hc
    · intro hne he
      apply hne
      rw [← he]
      exact hu.symm

/-- C13, the scenario: `failAt = 42`, headers numbered 41, 42 and 43 that pass the
structural rule of `strictHeld`, flag on: success, invalid seal, success. -/
theorem verifyHeader_failAt_witness :
    (VerifyHeader (NewFakeFailer strictHeld 42) emptyChain (headerAt 41) true idSysCall).out =
      .returned none ∧
    (VerifyHeader (NewFakeFailer strictHeld 42) emptyChain (headerAt 42) true idSysCall).out =
      .returned (some .errInvalidPoW) ∧
    (VerifyHeader (NewFakeFailer strictHeld 42) emptyChain (headerAt 43) true idSysCall).out =
      .returned none :=
  ⟨((verifyHeader_failAt (NewFakeFailer strictHeld 42) emptyChain (headerAt 41) idSysCall
      (by decide)).2.2 (by decide) (by decide) (by decide)).2.mpr (by decide),
   ((verifyHeader_failAt (NewFakeFailer strictHeld 42) emptyChain (headerAt 42) idSysCall
      (by decide)).2.2 (by decide) (by decide) (by decide)).1.mpr (by decide),
   ((verifyHeader_failAt (NewFakeFailer strictHeld 42) emptyChain (headerAt 43) idSysCall
      (by decide)).2.2 (by decide) (by decide) (by decide)).2.mpr (by decide)⟩

/-- C13, as written, fails: with `failAt = 42` the header numbered `2^64 + 42`
passes the structural rule of `strictHeld`, its number is not `failAt`, and
`VerifyHeader` with the flag on rejects it with the invalid-seal error. -/
theorem verifyHeader_failAt_counterexample :
    (NewFakeFailer strictHeld 42).Ethash.VerifyHeader emptyChain (headerAt (2 ^ 64 + 42))
        false idSysCall = none ∧
    (headerAt (2 ^ 64 + 42)).Number ≠ ((NewFakeFailer strictHeld 42).fakeFail : Int) ∧
    (VerifyHeader (NewFakeFailer strictHeld 42) emptyChain (headerAt (2 ^ 64 + 42)) true
        idSysCall).out = .returned (some .errInvalidPoW) := by
  refine ⟨by decide, by decide, by decide⟩

/-- C18: for a header number `n ≥ 0`, `VerifySeal` fails with the invalid-seal
error exactly when `n mod 2^64 = failAt`, and succeeds otherwise; with
`failAt = 0` the rejected numbers are exactly the multiples of `2^64`, block 0
among them. -/
theorem verifySeal_truncates (f : FakeEthash) (chain : ChainReader) (h : Header)
    (hnn : 0 ≤ h.Number) :
    ((VerifySeal f chain h).out = .returned (some .errInvalidPoW) ↔
        h.Number % 2 ^ 64 = (f.fakeFail : Int)) ∧
    ((VerifySeal f chain h).out = .returned none ↔
        h.Number % 2 ^ 64 ≠ (f.fakeFail : Int)) ∧
    (f.fakeFail = 0 →
      ((VerifySeal f chain h).out = .returned (some .errInvalidPoW) ↔
        (2 ^ 64 : Int) ∣ h.Number)) ∧
    (f.fakeFail = 0 → h.Number = 0 →
      (VerifySeal f chain h).out = .returned (some .errInvalidPoW)) := by
  have hu : (Uint64 h.Number : Int) = h.Number % 2 ^ 64 := uint64_of_nonneg h.Number hnn
  have h1 : (VerifySeal f chain h).out = .returned (some .errInvalidPoW) ↔
      h.Number % 2 ^ 64 = (f.fakeFail : Int) := by
    rw [verifySeal_err_iff, ← hu]
    exact Nat.cast_inj.symm
  have h2 : (VerifySeal f chain h).out = .returned none ↔
      h.Number % 2 ^ 64 ≠ (f.fakeFail : Int) := by
    rw [verifySeal_ok_iff, ← hu]
    exact not_congr Nat.cast_inj.symm
  have h3 : f.fakeFail = 0 →
      ((VerifySeal f chain h).out = .returned (some .errInvalidPoW) ↔
        (2 ^ 64 : Int) ∣ h.Number) := by
    intro hz
    rw [h1, hz]
    simp only [Nat.cast_zero]
    exact Int.dvd_iff_emod_eq_zero.symm
  refine ⟨h1, h2, h3, ?_⟩
  intro hz hn
  rw [h3 hz, hn]
  exact dvd_zero _

/-- C18, an instance: with `failAt = 5` the header numbered `3 * 2^64 + 5` is
rejected; with `failAt = 0` the header numbered `2^64` and block 0 are rejected. -/
theorem verifySeal_truncates_witness :
    (VerifySeal (NewFakeFailer strictHeld 5) emptyChain (headerAt (3 * 2 ^ 64 + 5))).out =
      .returned (some .errInvalidPoW) ∧
    (VerifySeal (NewFaker strictHeld) emptyChain (headerAt (2 ^ 64))).out =
      .returned (some .errInvalidPoW) ∧
    (VerifySeal (NewFaker strictHeld) emptyChain (headerAt 0)).out =
      .returned (some .errInvalidPoW) :=
  ⟨(verifySeal_truncates (NewFakeFailer strictHeld 5) emptyChain (headerAt (3 * 2 ^ 64 + 5))
      (by decide)).1.mpr (by decide),
   ((verifySeal_truncates (NewFaker strictHeld) emptyChain (headerAt (2 ^ 64))
      (by decide)).2.2.1 rfl).mpr (by decide),
   (verifySeal_truncates (NewFaker strictHeld) emptyChain (headerAt 0)
      (by decide)).2.2.2 rfl rfl⟩

/-! ### Lemmas on batches of any two lengths -/

theorem sealWalk_out (f : FakeEthash) (chain : ChainReader) :
    ∀ (hs : List Header) (ss : List Bool),
      (sealWalk f chain hs ss).out =
        if (flagged hs ss).any (sealFails f) then .returned (some .errInvalidPoW)
        else if hs.length ≤ ss.length then .returned none
        else .panicked "index out of range" := by
  intro hs
  induction hs with
  | nil => intro ss; simp [sealWalk, flagged, Run.nil]
  | cons h rest ih =>
    intro ss
    cases ss with
    | nil => simp [sealWalk, flagged]
    | cons s ss =>
      cases s with
      | false =>
        have hf : flagged (h :: rest) (false :: ss) = flagged rest ss := by
          simp [flagged]
        rw [hf]
        simp only [sealWalk, List.length_cons, Nat.add_le_add_iff_right]
        exact ih ss
      | true =>
        have hf : flagged (h :: rest) (true :: ss) = h :: flagged rest ss := by
          simp [flagged]
        rw [hf]
        simp only [sealWalk, List.length_cons, Nat.add_le_add_iff_right, andThen_out,
          List.any_cons]
        rcases verifySeal_out_cases f chain h with ⟨hb, ho⟩ | ⟨hb, ho⟩
        · simp [hb, ho]
        · simp only [ho, hb, if_true, Bool.false_or]
          exact ih ss

theorem verifyHeaders_out (f : FakeEthash) (chain : ChainReader) (headers : List Header)
    (seals : List Bool) :
    (VerifyHeaders f chain headers seals).out =
      match f.Ethash.VerifyHeaders chain headers (List.replicate seals.length false) with
      | some e => .returned (some e)
      | none => (sealWalk f chain headers seals).out := by
  unfold VerifyHeaders Run.held
  cases hh : f.Ethash.VerifyHeaders chain headers (List.replicate seals.length false) with
  | none =>
    simp only [hh]
    rw [andThen_ok, sealLoop_eq_sealWalk, List.drop_zero]
  | some e =>
    simp only [hh]
    rfl

theorem firstFailure_out_mem (l : List Run) (h : (firstFailure l).out ≠ .returned none) :
    ∃ r ∈ l, r.out = (firstFailure l).out := by
  induction l with
  | nil => exact absurd rfl h
  | cons r rest ih =>
    simp only [firstFailure] at h ⊢
    by_cases hr : r.out = .returned none
    · rw [andThen_of_ok _ _ hr] at h ⊢
      obtain ⟨x, hx, hxo⟩ := ih h
      exact ⟨x, List.mem_cons_of_mem _ hx, hxo⟩
    · rw [andThen_of_not_ok _ _ hr]
      exact ⟨r, List.mem_cons_self _ _, rfl⟩

theorem perPair_ok_iff (f : FakeEthash) (chain : ChainReader) (sysCall : SystemCall) :
    ∀ (hs : List Header) (ss : List Bool), hs.length = ss.length →
      ((∀ p ∈ hs.zip ss, (VerifyHeader f chain p.1 p.2 sysCall).out = .returned none) ↔
        (∀ h ∈ hs, f.Ethash.VerifyHeader chain h false sysCall = none) ∧
        (sealWalk f chain hs ss).out = .returned none) := by
  intro hs
  induction hs with
  | nil => intro ss _; simp [sealWalk, Run.nil]
  | cons h rest ih =>
    intro ss hlen
    cases ss with
    | nil => simp at hlen
    | cons s ss =>
      have hl : rest.length = ss.length := by simpa using hlen
      have hhead : (VerifyHeader f chain h s sysCall).out = .returned none ↔
          f.Ethash.VerifyHeader chain h false sysCall = none ∧
          (s = true → (VerifySeal f chain h).out = .returned none) := by
        rw [verifyHeader_out]
        cases hh : f.Ethash.VerifyHeader chain h false sysCall with
        | none => cases s <;> simp
        | some e => simp
      simp only [List.zip_cons_cons, List.mem_cons, forall_eq_or_imp, ih ss hl, hhead]
      cases s with
      | false =>
        simp only [sealWalk]
        constructor
        · rintro ⟨⟨a, _⟩, b, c⟩
          exact ⟨⟨a, b⟩, c⟩
        · rintro ⟨⟨a, b⟩, c⟩
          exact ⟨⟨a, fun hf => absurd hf (by simp)⟩, b, c⟩
      | true =>
        simp only [sealWalk, andThen_out_ok_iff]
        constructor
        · rintro ⟨⟨a, b⟩, c, d⟩
          exact ⟨⟨a, c⟩, b trivial, d⟩
        · rintro ⟨⟨a, c⟩, b, d⟩
          exact ⟨⟨a, fun _ => b⟩, c, d⟩

/-! ### The claims on aborts, errors, repeated calls and the batch order -/

theorem sealLoopPtr_eq_sealWalkPtr (f : FakeEthash) (chain : ChainReader)
    (seals : List Bool) :
    ∀ (hs : List HeaderPtr) (i : Nat),
      sealLoopPtr f chain seals i hs = sealWalkPtr f chain hs (seals.drop i) := by
  intro hs
  induction hs with
  | nil => intro i; simp [sealLoopPtr, sealWalkPtr]
  | cons h rest ih =>
    intro i
    by_cases hi : i < seals.length
    · rw [List.drop_eq_getElem_cons hi]
      unfold sealLoopPtr
      rw [List.getElem?_eq_getElem hi]
      cases hb : seals[i] with
      | true => simp only [sealWalkPtr]; rw [ih]
      | false => simp only [sealWalkPtr]; rw [ih]
    · have hle : seals.length ≤ i := Nat.le_of_not_lt hi
      unfold sealLoopPtr
      rw [List.getElem?_eq_none hle, List.drop_eq_nil_of_le hle]
      simp [sealWalkPtr]

theorem verifySealPtr_of_passes (f : FakeEthash) (chain : ChainReader) (p : HeaderPtr)
    (hp : passesSealPtr f p = true) : VerifySealPtr f chain p = .returned none := by
  cases p with
  | nilHeader => simp [passesSealPtr] at hp
  | nilNumber fields => simp [passesSealPtr] at hp
  | valid h =>
    simp only [passesSealPtr, Bool.not_eq_true'] at hp
    rcases verifySeal_out_cases f chain h with ⟨hb, _⟩ | ⟨_, ho⟩
    · rw [hb] at hp
      cases hp
    · exact ho

theorem verifySealPtr_of_fails (f : FakeEthash) (chain : ChainReader) (p : HeaderPtr)
    (hp : passesSealPtr f p = false) :
    VerifySealPtr f chain p =
      if p.isValid then .returned (some .errInvalidPoW)
      else .panicked "nil pointer dereference" := by
  cases p with
  | nilHeader => rfl
  | nilNumber fields => rfl
  | valid h =>
    simp only [passesSealPtr, Bool.not_eq_false'] at hp
    rcases verifySeal_out_cases f chain h with ⟨_, ho⟩ | ⟨hb, _⟩
    · simp [VerifySealPtr, HeaderPtr.isValid, ho]
    · rw [hb] at hp
      cases hp

theorem verifySealPtr_of_valid (f : FakeEthash) (chain : ChainReader) (p : HeaderPtr)
    (hp : p.isValid = true) : ∃ err, VerifySealPtr f chain p = .returned err := by
  cases p with
  | nilHeader => simp [HeaderPtr.isValid] at hp
  | nilNumber fields => simp [HeaderPtr.isValid] at hp
  | valid h =>
    rcases verifySeal_out_cases f chain h with ⟨_, ho⟩ | ⟨_, ho⟩
    · exact ⟨some .errInvalidPoW, ho⟩
    · exact ⟨none, ho⟩

theorem sealWalkPtr_returns (f : FakeEthash) (chain : ChainReader) :
    ∀ (hs : List HeaderPtr) (ss : List Bool), hs.length ≤ ss.length →
      (∀ q ∈ hs.zip ss, q.2 = true → q.1.isValid = true) →
      ∃ err, sealWalkPtr f chain hs ss = .returned err := by
  intro hs
  induction hs with
  | nil => intro ss _ _; exact ⟨none, rfl⟩
  | cons p rest ih =>
    intro ss hlen hv
    cases ss with
    | nil => simp at hlen
    | cons b ss =>
      have hl : rest.length ≤ ss.length := by simpa using hlen
      have hrest : ∀ q ∈ rest.zip ss, q.2 = true → q.1.isValid = true :=
        fun q hq => hv q (by rw [List.zip_cons_cons]; exact List.mem_cons_of_mem _ hq)
      cases b with
      | false => simp only [sealWalkPtr]; exact ih ss hl hrest
      | true =>
        have hp : p.isValid = true :=
          hv (p, true) (by rw [List.zip_cons_cons]; exact List.mem_cons_self _ _) rfl
        obtain ⟨err, he⟩ := verifySealPtr_of_valid f chain p hp
        simp only [sealWalkPtr, he]
        cases err with
        | none => exact ih ss hl hrest
        | some e => exact ⟨some e, rfl⟩

theorem sealWalkPtr_index_panic (f : FakeEthash) (chain : ChainReader) :
    ∀ (hs : List HeaderPtr) (ss : List Bool), ss.length < hs.length →
      (∀ q ∈ hs.zip ss, q.2 = true → passesSealPtr f q.1 = true) →
      sealWalkPtr f chain hs ss = .panicked "index out of range" := by
  intro hs
  induction hs with
  | nil => intro ss hlen _; simp at hlen
  | cons p rest ih =>
    intro ss hlen hv
    cases ss with
    | nil => rfl
    | cons b ss =>
      have hl : ss.length < rest.length := by simpa using hlen
      have hrest : ∀ q ∈ rest.zip ss, q.2 = true → passesSealPtr f q.1 = true :=
        fun q hq => hv q (by rw [List.zip_cons_cons]; exact List.mem_cons_of_mem _ hq)
      cases b with
      | false => simp only [sealWalkPtr]; exact ih ss hl hrest
      | true =>
        have hp : passesSealPtr f p = true :=
          hv (p, true) (by rw [List.zip_cons_cons]; exact List.mem_cons_self _ _) rfl
        simp only [sealWalkPtr, verifySealPtr_of_passes f chain p hp, Outcome.andThen]
        exact ih ss hl hrest

theorem sealWalkPtr_first_stop (f : FakeEthash) (chain : ChainReader) (p : HeaderPtr)
    (post : List HeaderPtr) (ss2 : List Bool) (hp : passesSealPtr f p = false) :
    ∀ (pre : List HeaderPtr) (ss1 : List Bool), pre.length = ss1.length →
      (∀ q ∈ pre.zip ss1, q.2 = true → passesSealPtr f q.1 = true) →
      sealWalkPtr f chain (pre ++ p :: post) (ss1 ++ true :: ss2) =
        if p.isValid then .returned (some .errInvalidPoW)
        else .panicked "nil pointer dereference" := by
  intro pre
  induction pre with
  | nil =>
    intro ss1 hlen _
    cases ss1 with
    | cons b ss => simp at hlen
    | nil =>
      simp only [List.nil_append, sealWalkPtr, verifySealPtr_of_fails f chain p hp]
      cases p.isValid <;> rfl
  | cons x rest ih =>
    intro ss1 hlen hv
    cases ss1 with
    | nil => simp at hlen
    | cons b ss =>
      have hl : rest.length = ss.length := by simpa using hlen
      have hrest : ∀ q ∈ rest.zip ss, q.2 = true → passesSealPtr f q.1 = true :=
        fun q hq => hv q (by rw [List.zip_cons_cons]; exact List.mem_cons_of_mem _ hq)
      cases b with
      | false => simp only [List.cons_append, sealWalkPtr]; exact ih ss hl hrest
      | true =>
        have hx : passesSealPtr f x = true :=
          hv (x, true) (by rw [List.zip_cons_cons]; exact List.mem_cons_self _ _) rfl
        simp only [List.cons_append, sealWalkPtr, verifySealPtr_of_passes f chain x hx,
          Outcome.andThen]
        exact ih ss hl hrest

theorem sealWalkPtr_valid (f : FakeEthash) (chain : ChainReader) :
    ∀ (hs : List Header) (ss : List Bool),
      sealWalkPtr f chain (hs.map .valid) ss = (sealWalk f chain hs ss).out := by
  intro hs
  induction hs with
  | nil => intro ss; rfl
  | cons h rest ih =>
    intro ss
    cases ss with
    | nil => rfl
    | cons b ss =>
      cases b with
      | false => simp only [List.map_cons, sealWalkPtr, sealWalk]; exact ih ss
      | true =>
        simp only [List.map_cons, sealWalkPtr, sealWalk, VerifySealPtr, andThen_out, ih ss]
        rcases verifySeal_out_cases f chain h with ⟨_, ho⟩ | ⟨_, ho⟩
        · simp [ho, Outcome.andThen]
        · simp [ho, Outcome.andThen]

/-- C14, as the code has it, on header pointers that may be nil.  `VerifyHeaders`
returns the error of the held batch check when that check fails.  When that check
passes, it returns (`nil` or an error) if the flag list is at least as long as
the header list and every header whose flag is on is not nil and has a number.
When that check passes and the walk meets no flagged header that stops it, a flag
list shorter than the header list makes it panic on the index past the end of
the flag list.  The first flagged header that does not pass the seal check stops
the walk: with the invalid-seal error when the header and its number are there,
with a panic on the nil dereference when not.  A panic of the held check is
passed on.  On headers that are all there the result is that of `VerifyHeaders`
on the headers themselves. -/
theorem verifyHeaders_abort_free (held : HeldBatchPtr) (f : FakeEthash)
    (chain : ChainReader) (headers : List HeaderPtr) (seals : List Bool) :
    (∀ e, held chain headers (List.replicate seals.length false) = .returned (some e) →
      VerifyHeadersPtr held f chain headers seals = .returned (some e)) ∧
    (∀ msg, held chain headers (List.replicate seals.length false) = .panicked msg →
      VerifyHeadersPtr held f chain headers seals = .panicked msg) ∧
    (held chain headers (List.replicate seals.length false) = .returned none →
      headers.length ≤ seals.length →
      (∀ q ∈ headers.zip seals, q.2 = true → q.1.isValid = true) →
      ∃ err, VerifyHeadersPtr held f chain headers seals = .returned err) ∧
    (held chain headers (List.replicate seals.length false) = .returned none →
      seals.length < headers.length →
      (∀ q ∈ headers.zip seals, q.2 = true → passesSealPtr f q.1 = true) →
      VerifyHeadersPtr held f chain headers seals = .panicked "index out of range") ∧
    (held chain headers (List.replicate seals.length false) = .returned none →
      ∀ pre p post ss1 ss2, headers = pre ++ p :: post → seals = ss1 ++ true :: ss2 →
      pre.length = ss1.length → passesSealPtr f p = false →
      (∀ q ∈ pre.zip ss1, q.2 = true → passesSealPtr f q.1 = true) →
      VerifyHeadersPtr held f chain headers seals =
        if p.isValid then .returned (some .errInvalidPoW)
        else .panicked "nil pointer dereference") ∧
    (∀ hs : List Header, headers = hs.map .valid →
      held chain headers (List.replicate seals.length false) =
        .returned (f.Ethash.VerifyHeaders chain hs (List.replicate seals.length false)) →
      VerifyHeadersPtr held f chain headers seals = (VerifyHeaders f chain hs seals).out) := by
  have hwalk : held chain headers (List.replicate seals.length false) = .returned none →
      VerifyHeadersPtr held f chain headers seals = sealWalkPtr f chain headers seals := by
    intro hn
    unfold VerifyHeadersPtr
    rw [hn, sealLoopPtr_eq_sealWalkPtr, List.drop_zero]
    rfl
  refine ⟨?_, ?_, ?_, ?_, ?_, ?_⟩
  · intro e he
    unfold VerifyHeadersPtr
    rw [he]
    rfl
  · intro msg he
    unfold VerifyHeadersPtr
    rw [he]
    rfl
  · intro hn hlen hv
    rw [hwalk hn]
    exact sealWalkPtr_returns f chain headers seals hlen hv
  · intro hn hlen hv
    rw [hwalk hn]
    exact sealWalkPtr_index_panic f chain headers seals hlen hv
  · intro hn pre p post ss1 ss2 hh hs hlen hp hv
    rw [hwalk hn, hh, hs]
    exact sealWalkPtr_first_stop f chain p post ss2 hp pre ss1 hlen hv
  · intro hs hh hheld
    rw [verifyHeaders_out]
    cases hb : f.Ethash.VerifyHeaders chain hs (List.replicate seals.length false) with
    | none =>
      rw [hb] at hheld
      rw [hwalk hheld, hh]
      exact sealWalkPtr_valid f chain hs seals
    | some e =>
      rw [hb] at hheld
      unfold VerifyHeadersPtr
      rw [hheld]
      rfl

/-- C14, instances: a flag list longer than the header list, with a nil header
whose flag is off: the call returns; equally long lists with a flagged nil
header after one that passes: the call panics on the nil dereference; a flag list
shorter than the header list: the call panics on the index. -/
theorem verifyHeaders_abort_free_witness :
    (∃ err, VerifyHeadersPtr lenientHeldPtr (NewFakeFailer strictHeld 5) emptyChain
        [.valid (headerAt 4), .nilHeader, .valid (headerAt 6)] [true, false, true, true] =
      .returned err) ∧
    VerifyHeadersPtr lenientHeldPtr (NewFakeFailer strictHeld 5) emptyChain
        [.valid (headerAt 4), .nilNumber (headerAt 6)] [true, true] =
      .panicked "nil pointer dereference" ∧
    VerifyHeadersPtr lenientHeldPtr (NewFakeFailer strictHeld 5) emptyChain
        [.valid (headerAt 4), .valid (headerAt 6)] [true] =
      .panicked "index out of range" :=
  ⟨(verifyHeaders_abort_free lenientHeldPtr (NewFakeFailer strictHeld 5) emptyChain
      [.valid (headerAt 4), .nilHeader, .valid (headerAt 6)] [true, false, true, true]).2.2.1
      (by decide) (by decide) (by decide),
   (verifyHeaders_abort_free lenientHeldPtr (NewFakeFailer strictHeld 5) emptyChain
      [.valid (headerAt 4), .nilNumber (headerAt 6)] [true, true]).2.2.2.2.1
      (by decide) [.valid (headerAt 4)] (.nilNumber (headerAt 6)) [] [true] [] rfl rfl rfl
      (by decide) (by decide),
   (verifyHeaders_abort_free lenientHeldPtr (NewFakeFailer strictHeld 5) emptyChain
      [.valid (headerAt 4), .valid (headerAt 6)] [true]).2.2.2.1
      (by decide) (by decide) (by decide)⟩

/-- C14, as written, fails: two headers that pass the structural rule of
`strictHeld`, one flag; the first header passes its seal check and the loop then
indexes the flag list at 1, past its end.  And with equally long lists, a nil
header whose flag is on makes the seal check panic on the nil dereference. -/
theorem verifyHeaders_abort_free_counterexample :
    (VerifyHeaders (NewFakeFailer strictHeld 5) emptyChain
        [headerAt 4, headerAt 6] [true]).out = .panicked "index out of range" ∧
    VerifyHeadersPtr lenientHeldPtr (NewFakeFailer strictHeld 5) emptyChain
        [.valid (headerAt 4), .nilHeader] [true, true] =
      .panicked "nil pointer dereference" := by
  refine ⟨by decide, by decide⟩

/-- C15: an error returned by `VerifyHeader`, `VerifyHeaders` or `VerifyUncle` is
the invalid-seal error or the very error the held check of the same name returned
with the flag(s) off; an error returned by `VerifyUncles` is the too-many-uncles
error, the invalid-seal error, or the very error the held `VerifyUncle` returned
for one of the uncles with the flag off. -/
theorem errors_passed_through (f : FakeEthash) (chain : ChainReader) (e : GoError) :
    (∀ header checkSeal sysCall,
      (VerifyHeader f chain header checkSeal sysCall).out = .returned (some e) →
      e = .errInvalidPoW ∨ f.Ethash.VerifyHeader chain header false sysCall = some e) ∧
    (∀ headers seals,
      (VerifyHeaders f chain headers seals).out = .returned (some e) →
      e = .errInvalidPoW ∨
      f.Ethash.VerifyHeaders chain headers (List.replicate seals.length false) = some e) ∧
    (∀ block uncle uncles ancestors checkSeal,
      (VerifyUncle f chain block uncle uncles ancestors checkSeal).run.out =
        .returned (some e) →
      e = .errInvalidPoW ∨
      (f.Ethash.VerifyUncle chain block uncle uncles ancestors false).1 = some e) ∧
    (∀ header uncles,
      (VerifyUncles f chain header uncles).out = .returned (some e) →
      e = .errTooManyUncles ∨ e = .errInvalidPoW ∨
      ∃ u ∈ uncles, ∃ p w, (f.Ethash.VerifyUncle chain header u p w false).1 = some e) := by
  have hseal : ∀ h : Header, (VerifySeal f chain h).out = .returned (some e) →
      e = .errInvalidPoW := by
    intro h hs
    rcases verifySeal_out_cases f chain h with ⟨_, ho⟩ | ⟨_, ho⟩
    · rw [ho] at hs
      simp only [Outcome.returned.injEq, Option.some.injEq] at hs
      exact hs.symm
    · rw [ho] at hs
      simp at hs
  refine ⟨?_, ?_, ?_, ?_⟩
  · intro header checkSeal sysCall he
    rw [verifyHeader_out] at he
    cases hh : f.Ethash.VerifyHeader chain header false sysCall with
    | some e1 =>
      rw [hh] at he
      simp only [Outcome.returned.injEq] at he
      right
      exact he
    | none =>
      rw [hh] at he
      cases checkSeal with
      | false => simp at he
      | true => left; exact hseal header (by simpa using he)
  · intro headers seals he
    rw [verifyHeaders_out] at he
    cases hh : f.Ethash.VerifyHeaders chain headers (List.replicate seals.length false) with
    | some e1 =>
      rw [hh] at he
      simp only [Outcome.returned.injEq] at he
      right
      exact he
    | none =>
      rw [hh] at he
      simp only [sealWalk_out] at he
      left
      by_cases ha : (flagged headers seals).any (sealFails f) = true
      · simp only [ha, if_true, Outcome.returned.injEq, Option.some.injEq] at he
        exact he.symm
      · by_cases hl : headers.length ≤ seals.length
        · simp [ha, hl] at he
        · simp [ha, hl] at he
  · intro block uncle uncles ancestors checkSeal he
    rw [verifyUncle_run] at he
    cases hh : (f.Ethash.VerifyUncle chain block uncle uncles ancestors false).1 with
    | some e1 =>
      rw [hh] at he
      simp only [Outcome.returned.injEq] at he
      right
      exact he
    | none =>
      rw [hh] at he
      cases checkSeal with
      | false => simp at he
      | true => left; exact hseal uncle (by simpa using he)
  · intro header uncles he
    by_cases h2 : uncles.length > maxUncles
    · left
      unfold VerifyUncles at he
      simp only [h2, if_true, Outcome.returned.injEq, Option.some.injEq] at he
      exact he.symm
    · by_cases h0 : uncles.length = 0
      · unfold VerifyUncles at he
        simp [h2, h0, Run.nil] at he
      · right
        have heq := verifyUncles_eq f chain header uncles (by omega) (by omega)
        rw [heq] at he
        simp only at he
        obtain ⟨r, hr, hro⟩ := firstFailure_out_mem (uncleRuns f chain header uncles)
          (by rw [he]; simp)
        obtain ⟨u, hu, p, w, rfl⟩ := uncleChecks_mem f chain header uncles _ _ r hr
        rw [he, verifyUncle_out] at hro
        cases hh : (f.Ethash.VerifyUncle chain header u p w false).1 with
        | some e1 =>
          rw [hh] at hro
          simp only [Outcome.returned.injEq] at hro
          right
          exact ⟨u, hu, p, w, by rw [hh, hro]⟩
        | none =>
          rw [hh] at hro
          left
          exact hseal u hro

/-- C15, instances: the structural error of `strictHeld` for a header with
timestamp zero comes out of `VerifyHeader` as it is; three uncles give the
too-many-uncles error. -/
theorem errors_passed_through_witness :
    (GoError.structural 1 = .errInvalidPoW ∨
      (NewFakeFailer strictHeld 5).Ethash.VerifyHeader emptyChain (badHeaderAt 6) false
        idSysCall = some (.structural 1)) ∧
    (GoError.errTooManyUncles = .errTooManyUncles ∨
      GoError.errTooManyUncles = .errInvalidPoW ∨
      ∃ u ∈ [headerAt 1, headerAt 2, headerAt 3], ∃ p w,
        ((NewFakeFailer strictHeld 5).Ethash.VerifyUncle emptyChain (headerAt 9) u p w
          false).1 = some .errTooManyUncles) :=
  ⟨(errors_passed_through (NewFakeFailer strictHeld 5) emptyChain (.structural 1)).1
      (badHeaderAt 6) true idSysCall (by decide),
   (errors_passed_through (NewFakeFailer strictHeld 5) emptyChain .errTooManyUncles).2.2.2
      (headerAt 9) [headerAt 1, headerAt 2, headerAt 3] (by decide)⟩

/-- C17: for equally long lists, and a held batch check (flags off) that passes
exactly when the held single check (flag off) passes on every header,
`VerifyHeaders` succeeds iff `VerifyHeader` succeeds on every header with the flag
at the same position; and whenever the held batch check returns an error, that
structural error is the result and no seal check has run, also when an earlier
header has its flag on and fails the seal check. -/
theorem verifyHeaders_success_iff (f : FakeEthash) (chain : ChainReader)
    (sysCall : SystemCall) (headers : List Header) (seals : List Bool)
    (hlen : headers.length = seals.length)
    (hheld : f.Ethash.VerifyHeaders chain headers (List.replicate headers.length false) = none ↔
      ∀ h ∈ headers, f.Ethash.VerifyHeader chain h false sysCall = none) :
    ((VerifyHeaders f chain headers seals).out = .returned none ↔
      ∀ p ∈ headers.zip seals,
        (VerifyHeader f chain p.1 p.2 sysCall).out = .returned none) ∧
    (∀ e, f.Ethash.VerifyHeaders chain headers (List.replicate headers.length false) = some e →
      VerifyHeaders f chain headers seals =
        ⟨[.heldVerifyHeaders headers (List.replicate headers.length false)],
         .returned (some e)⟩) := by
  constructor
  · rw [perPair_ok_iff f chain sysCall headers seals hlen, ← hheld, verifyHeaders_out, ← hlen]
    cases hh : f.Ethash.VerifyHeaders chain headers (List.replicate headers.length false) with
    | none => simp
    | some e => simp
  · intro e he
    unfold VerifyHeaders Run.held
    simp only [← hlen, he]
    rfl

/-- C17, an instance: `failAt = 5`, header 5 with its flag on, then a header that
breaks the structural rule of `strictHeld`: the batch returns the structural
error of the second header, and no seal check has run. -/
theorem verifyHeaders_success_iff_witness :
    VerifyHeaders (NewFakeFailer strictHeld 5) emptyChain [headerAt 5, badHeaderAt 6]
        [true, false] =
      ⟨[.heldVerifyHeaders [headerAt 5, badHeaderAt 6] [false, false]],
       .returned (some (.structural 1))⟩ ∧
    ((VerifyHeaders (NewFakeFailer strictHeld 5) emptyChain [headerAt 4, headerAt 6]
        [true, true]).out = .returned none ↔
      ∀ p ∈ [headerAt 4, headerAt 6].zip [true, true],
        (VerifyHeader (NewFakeFailer strictHeld 5) emptyChain p.1 p.2 idSysCall).out =
          .returned none) :=
  ⟨(verifyHeaders_success_iff (NewFakeFailer strictHeld 5) emptyChain idSysCall
      [headerAt 5, badHeaderAt 6] [true, false] (by decide) (by decide)).2
      (.structural 1) (by decide),
   (verifyHeaders_success_iff (NewFakeFailer strictHeld 5) emptyChain idSysCall
      [headerAt 4, headerAt 6] [true, true] (by decide) (by decide)).1⟩

end FakeEthashModel

namespace RpcDaemonModel

/-! ### The list of APIs -/

theorem appendEnabled_of_not_recognised (m : Impls) (acc : List API) (n : String)
    (hn : n ∉ recognised) : appendEnabled m acc n = acc := by
  have h1 : ¬ n = "eth" := fun h => hn (by rw [h]; decide)
  have h2 : ¬ n = "debug" := fun h => hn (by rw [h]; decide)
  have h3 : ¬ n = "net" := fun h => hn (by rw [h]; decide)
  have h4 : ¬ n = "txpool" := fun h => hn (by rw [h]; decide)
  have h5 : ¬ n = "web3" := fun h => hn (by rw [h]; decide)
  have h6 : ¬ n = "trace" := fun h => hn (by rw [h]; decide)
  have h7 : ¬ n = "db" := fun h => hn (by rw [h]; decide)
  have h8 : ¬ n = "engine" := fun h => hn (by rw [h]; decide)
  have h9 : ¬ n = "bor" := fun h => hn (by rw [h]; decide)
  unfold appendEnabled
  rw [if_neg h1, if_neg h2, if_neg h3, if_neg h4, if_neg h5, if_neg h6, if_neg h7, if_neg h8,
    if_neg h9]

theorem appendEnabled_eq_append (m : Impls) (acc : List API) (n : String) :
    appendEnabled m acc n = acc ++ appendEnabled m [] n := by
  by_cases hn : n ∈ recognised
  · simp only [recognised, List.mem_cons, List.mem_singleton, List.not_mem_nil, or_false] at hn
    rcases hn with h | h | h | h | h | h | h | h | h <;> subst h <;> rfl
  · rw [appendEnabled_of_not_recognised m acc n hn, appendEnabled_of_not_recognised m [] n hn,
      List.append_nil]

theorem appendEnabled_nil_names (m : Impls) (n : String) :
    (appendEnabled m [] n).map (fun a => a.Namespace) =
      if n ∈ recognised then [n] else [] := by
  by_cases hn : n ∈ recognised
  · rw [if_pos hn]
    simp only [recognised, List.mem_cons, List.mem_singleton, List.not_mem_nil, or_false] at hn
    rcases hn with h | h | h | h | h | h | h | h | h <;> subst h <;> rfl
  · rw [if_neg hn, appendEnabled_of_not_recognised m [] n hn]
    rfl

theorem appendEnabled_nil_fields (m : Impls) (n : String) :
    ∀ a ∈ appendEnabled m [] n, a.Public = true ∧ a.Version = "1.0" := by
  intro a ha
  by_cases hn : n ∈ recognised
  · simp only [recognised, List.mem_cons, List.mem_singleton, List.not_mem_nil, or_false] at hn
    rcases hn with h | h | h | h | h | h | h | h | h <;> subst h <;>
      · have hs := List.mem_singleton.mp ha
        subst hs
        exact ⟨rfl, rfl⟩
  · rw [appendEnabled_of_not_recognised m [] n hn] at ha
    cases ha

theorem foldl_appendEnabled (m : Impls) :
    ∀ (names : List String) (acc : List API),
      names.foldl (appendEnabled m) acc = acc ++ names.flatMap (appendEnabled m []) := by
  intro names
  induction names with
  | nil => intro acc; simp
  | cons n rest ih =>
    intro acc
    rw [List.foldl_cons, ih, appendEnabled_eq_append, List.flatMap_cons, List.append_assoc]

theorem flatMap_names (m : Impls) (names : List String) :
    (names.flatMap (appendEnabled m [])).map (fun a => a.Namespace) =
      names.filter (fun n => decide (n ∈ recognised)) := by
  induction names with
  | nil => rfl
  | cons n rest ih =>
    rw [List.flatMap_cons, List.map_append, ih, appendEnabled_nil_names, List.filter_cons]
    by_cases hn : n ∈ recognised <;> simp [hn]

/-- C19: `APIList` returns the entries for the recognised elements of `cfg.API`,
in the order of `cfg.API` and with repetitions kept, each with `Namespace` equal
to the element, `Public = true` and `Version = "1.0"`, followed by
`customAPIList` as it is; unrecognised elements give no entry, so the length is
the number of recognised elements of `cfg.API` plus the length of
`customAPIList`. -/
theorem apiList_entries (m : Impls) (cfg : Flags) (customAPIList : List API) :
    ∃ defaults : List API,
      APIList m cfg customAPIList = defaults ++ customAPIList ∧
      defaults.map (fun a => a.Namespace) =
        cfg.API.filter (fun n => decide (n ∈ recognised)) ∧
      (∀ a ∈ defaults, a.Public = true ∧ a.Version = "1.0") ∧
      (APIList m cfg customAPIList).length =
        (cfg.API.filter (fun n => decide (n ∈ recognised))).length + customAPIList.length := by
  refine ⟨cfg.API.flatMap (appendEnabled m []), ?_, flatMap_names m cfg.API, ?_, ?_⟩
  · unfold APIList
    rw [foldl_appendEnabled, List.nil_append]
  · intro a ha
    obtain ⟨n, _, hn⟩ := List.mem_flatMap.mp ha
    exact appendEnabled_nil_fields m n a hn
  · unfold APIList
    rw [foldl_appendEnabled, List.nil_append, List.length_append, ← flatMap_names m cfg.API,
      List.length_map]

end RpcDaemonModel
